import Mathlib

/-!
# STM32F10x RTC driver (`stm32f10x_rtc.c`): register-level model

The driver is a set of C functions over the memory-mapped register bank `RTC`.
Each function is embedded as a Lean function over a `Machine`: the register bank
together with the trace of register accesses made so far.  Registers are 16-bit
(`uint16_t`), arguments are `uint16_t` or `uint32_t`; they are natural numbers
here, and every store truncates with an explicit `% 2^16`.

An access is one register-access expression of the C source: a load (a register
read inside an expression), a store (a plain assignment `RTC->R = e`) or an
update (a compound assignment `RTC->R |= e` / `RTC->R &= e`, the read-modify-write
of one statement).
-/

namespace Stm32Rtc

/-! ## Machine integers -/

/-- Conversion to `uint16_t`. -/
def u16 (x : Nat) : Nat := x % 65536

/-- Conversion to `uint32_t`. -/
def u32 (x : Nat) : Nat := x % 4294967296

/-- The C operator `~` on a 32-bit operand (after integer promotion), as a bit pattern. -/
def cnot (x : Nat) : Nat := 0xFFFFFFFF ^^^ u32 x

/-! ## Register bank -/

/-- Modelled from the spec: the register names of the RTC register bank (section 6 of the
spec); the C declaration `RTC_TypeDef` lives in the header `stm32f10x.h`. -/
inductive Reg
  | CRH | CRL | PRLH | PRLL | DIVH | DIVL | CNTH | CNTL | ALRH | ALRL
  deriving DecidableEq, Repr

/-- Modelled from the spec: the register bank `RTC_TypeDef` of `stm32f10x.h`, ten 16-bit
registers (section 6 of the spec). -/
structure RTC_TypeDef where
  CRH : Nat
  CRL : Nat
  PRLH : Nat
  PRLL : Nat
  DIVH : Nat
  DIVL : Nat
  CNTH : Nat
  CNTL : Nat
  ALRH : Nat
  ALRL : Nat
  deriving DecidableEq, Repr

/-- Value of register `r`. -/
def RTC_TypeDef.get (s : RTC_TypeDef) : Reg → Nat
  | .CRH => s.CRH
  | .CRL => s.CRL
  | .PRLH => s.PRLH
  | .PRLL => s.PRLL
  | .DIVH => s.DIVH
  | .DIVL => s.DIVL
  | .CNTH => s.CNTH
  | .CNTL => s.CNTL
  | .ALRH => s.ALRH
  | .ALRL => s.ALRL

/-- Register bank with register `r` replaced by `v`. -/
def RTC_TypeDef.set (s : RTC_TypeDef) (r : Reg) (v : Nat) : RTC_TypeDef :=
  match r with
  | .CRH => { s with CRH := v }
  | .CRL => { s with CRL := v }
  | .PRLH => { s with PRLH := v }
  | .PRLL => { s with PRLL := v }
  | .DIVH => { s with DIVH := v }
  | .DIVL => { s with DIVL := v }
  | .CNTH => { s with CNTH := v }
  | .CNTL => { s with CNTL := v }
  | .ALRH => { s with ALRH := v }
  | .ALRL => { s with ALRL := v }

/-- Every register holds a 16-bit value. -/
def RTC_TypeDef.WF (s : RTC_TypeDef) : Prop :=
  s.CRH < 65536 ∧ s.CRL < 65536 ∧ s.PRLH < 65536 ∧ s.PRLL < 65536 ∧ s.DIVH < 65536 ∧
  s.DIVL < 65536 ∧ s.CNTH < 65536 ∧ s.CNTL < 65536 ∧ s.ALRH < 65536 ∧ s.ALRL < 65536

instance (s : RTC_TypeDef) : Decidable s.WF := by
  unfold RTC_TypeDef.WF; infer_instance

/-! ## Accesses and traces -/

/-- One register access of the C source. -/
inductive Access
  | load (r : Reg) (v : Nat)
  | store (r : Reg) (v : Nat)
  | update (r : Reg) (old new : Nat)
  deriving DecidableEq, Repr

/-- Whether the access writes a register. -/
def Access.isWrite : Access → Bool
  | .load _ _ => false
  | .store _ _ => true
  | .update _ _ _ => true

/-- A trace entry: the access and the register bank at the moment it is issued. -/
structure Step where
  acc : Access
  pre : RTC_TypeDef
  deriving DecidableEq, Repr

/-- The register bank and the accesses made so far (oldest first). -/
structure Machine where
  regs : RTC_TypeDef
  trace : List Step
  deriving DecidableEq, Repr

/-- Read of `RTC->r` inside an expression. -/
def Machine.load (r : Reg) (m : Machine) : Nat × Machine :=
  (m.regs.get r, { m with trace := m.trace ++ [⟨.load r (m.regs.get r), m.regs⟩] })

/-- Assignment `RTC->r = v`, truncated to the 16-bit register. -/
def Machine.store (r : Reg) (v : Nat) (m : Machine) : Machine :=
  { regs := m.regs.set r (u16 v),
    trace := m.trace ++ [⟨.store r (u16 v), m.regs⟩] }

/-- Compound assignment `RTC->r op= e`: the new value is `f` of the old one, truncated. -/
def Machine.update (r : Reg) (f : Nat → Nat) (m : Machine) : Machine :=
  { regs := m.regs.set r (u16 (f (m.regs.get r))),
    trace := m.trace ++ [⟨.update r (m.regs.get r) (u16 (f (m.regs.get r))), m.regs⟩] }

/-- The hardware changes the status register `CRL` to `v` (a 16-bit value); no access of
the program is involved. -/
def Machine.hwCRL (v : Nat) (m : Machine) : Machine :=
  { m with regs := m.regs.set .CRL (u16 v) }

/-! ## Constants -/

/-- Private define `CRL_CNF_Set`. -/
def CRL_CNF_Set : Nat := 0x0010

/-- Private define `CRL_CNF_Reset`. -/
def CRL_CNF_Reset : Nat := 0xFFEF

/-- Private define `RTC_LSB_Mask`. -/
def RTC_LSB_Mask : Nat := 0x0000FFFF

/-- Private define `PRLH_MSB_Mask`. -/
def PRLH_MSB_Mask : Nat := 0x000F0000

/-- Modelled from the spec: the macro `RTC_FLAG_RTOFF` of the header `stm32f10x_rtc.h`,
the write-completion flag of CRL. -/
def RTC_FLAG_RTOFF : Nat := 0x0020

/-- Modelled from the spec: the macro `RTC_FLAG_RSF` of the header `stm32f10x_rtc.h`,
the registers-synchronized flag of CRL. -/
def RTC_FLAG_RSF : Nat := 0x0008

/-- Modelled from the spec: the macro `RTC_IT_OW` of the header `stm32f10x_rtc.h`. -/
def RTC_IT_OW : Nat := 0x0004

/-- Modelled from the spec: the macro `RTC_IT_ALR` of the header `stm32f10x_rtc.h`. -/
def RTC_IT_ALR : Nat := 0x0002

/-- Modelled from the spec: the macro `RTC_IT_SEC` of the header `stm32f10x_rtc.h`. -/
def RTC_IT_SEC : Nat := 0x0001

/-- Modelled from the spec: the enumeration `FlagStatus` / `ITStatus` of `stm32f10x.h`
(`RESET = 0`, `SET = !RESET`), the boolean result of the status queries. -/
inductive FlagStatus
  | RESET | SET
  deriving DecidableEq, Repr

/-- Modelled from the spec: the enumeration `FunctionalState` of `stm32f10x.h`
(`DISABLE = 0`, `ENABLE = !DISABLE`), the boolean argument of `RTC_ITConfig`. -/
inductive FunctionalState
  | DISABLE | ENABLE
  deriving DecidableEq, Repr

/-- Modelled from the spec: the storage width of the enumeration `ITStatus` of `stm32f10x.h`.
The width is chosen by the C implementation and nothing in the driver fixes it: one byte
with short enumerations (the default of the bare-metal ARM ABI), the width of `int`
otherwise. -/
inductive EnumWidth
  | byte | word
  deriving DecidableEq, Repr

/-- The cast `(ITStatus) x` of an integer value: `x` is reduced to the width of the
enumeration. -/
def castITStatus (w : EnumWidth) (x : Nat) : Nat :=
  match w with
  | .byte => x % 256
  | .word => x % 4294967296

/-! ## The driver functions -/

/-- Function `RTC_ITConfig`: enables or disables the interrupts named in `RTC_IT`
(`assert_param` is empty in release builds and is not modelled). -/
def RTC_ITConfig (RTC_IT : Nat) (NewState : FunctionalState) (m : Machine) : Machine :=
  if NewState ≠ FunctionalState.DISABLE then
    m.update .CRH (fun crh => crh ||| RTC_IT)
  else
    m.update .CRH (fun crh => crh &&& u16 (cnot RTC_IT))

/-- Function `RTC_EnterConfigMode`: `RTC->CRL |= CRL_CNF_Set`. -/
def RTC_EnterConfigMode (m : Machine) : Machine :=
  m.update .CRL (fun crl => crl ||| CRL_CNF_Set)

/-- Function `RTC_ExitConfigMode`: `RTC->CRL &= CRL_CNF_Reset`. -/
def RTC_ExitConfigMode (m : Machine) : Machine :=
  m.update .CRL (fun crl => crl &&& CRL_CNF_Reset)

/-- Function `RTC_GetCounter`: reads CNTL into `tmp`, then CNTH, and assembles the 32-bit value. -/
def RTC_GetCounter (m : Machine) : Nat × Machine :=
  let (tmp, m1) := m.load .CNTL
  let (cnth, m2) := m1.load .CNTH
  (u32 (u32 cnth <<< 16) ||| tmp, m2)

/-- Function `RTC_SetCounter`. -/
def RTC_SetCounter (CounterValue : Nat) (m : Machine) : Machine :=
  let m1 := RTC_EnterConfigMode m
  let m2 := m1.store .CNTH (CounterValue >>> 16)
  let m3 := m2.store .CNTL (CounterValue &&& RTC_LSB_Mask)
  RTC_ExitConfigMode m3

/-- Function `RTC_SetPrescaler`. -/
def RTC_SetPrescaler (PrescalerValue : Nat) (m : Machine) : Machine :=
  let m1 := RTC_EnterConfigMode m
  let m2 := m1.store .PRLH ((PrescalerValue &&& PRLH_MSB_Mask) >>> 16)
  let m3 := m2.store .PRLL (PrescalerValue &&& RTC_LSB_Mask)
  RTC_ExitConfigMode m3

/-- Function `RTC_SetAlarm`. -/
def RTC_SetAlarm (AlarmValue : Nat) (m : Machine) : Machine :=
  let m1 := RTC_EnterConfigMode m
  let m2 := m1.store .ALRH (AlarmValue >>> 16)
  let m3 := m2.store .ALRL (AlarmValue &&& RTC_LSB_Mask)
  RTC_ExitConfigMode m3

/-- Function `RTC_GetDivider`. -/
def RTC_GetDivider (m : Machine) : Nat × Machine :=
  let (divh, m1) := m.load .DIVH
  let tmp := u32 ((u32 divh &&& 0x000F) <<< 16)
  let (divl, m2) := m1.load .DIVL
  (tmp ||| divl, m2)

/-- The loop `while ((RTC->CRL & flag) == (uint16_t) RESET) { }`.  Before poll number `k`
the hardware has put `hw k` into CRL; the loop condition then loads CRL.  The loop leaves
at the first poll whose value has a bit of `flag` set; `fuel` bounds the number of polls
that are run, and `none` means that the loop is still polling when the fuel is used up. -/
def pollCRL (flag : Nat) (hw : Nat → Nat) : Nat → Nat → Machine → Option Machine
  | 0, _, _ => none
  | fuel + 1, k, m =>
    let (crl, m1) := (m.hwCRL (hw k)).load .CRL
    if (crl &&& flag) = 0 then pollCRL flag hw fuel (k + 1) m1 else some m1

/-- Function `RTC_WaitForLastTask`: polls CRL until RTOFF is set. -/
def RTC_WaitForLastTask (hw : Nat → Nat) (fuel : Nat) (m : Machine) : Option Machine :=
  pollCRL RTC_FLAG_RTOFF hw fuel 0 m

/-- Function `RTC_WaitForSynchro`: clears RSF in CRL, then polls CRL until RSF is set. -/
def RTC_WaitForSynchro (hw : Nat → Nat) (fuel : Nat) (m : Machine) : Option Machine :=
  let m1 := m.update .CRL (fun crl => crl &&& u16 (cnot RTC_FLAG_RSF))
  pollCRL RTC_FLAG_RSF hw fuel 0 m1

/-- Function `RTC_GetFlagStatus`. -/
def RTC_GetFlagStatus (RTC_FLAG : Nat) (m : Machine) : FlagStatus × Machine :=
  let (crl, m1) := m.load .CRL
  if (crl &&& RTC_FLAG) ≠ 0 then (FlagStatus.SET, m1) else (FlagStatus.RESET, m1)

/-- Function `RTC_ClearFlag`: `RTC->CRL &= (uint16_t) ~RTC_FLAG`. -/
def RTC_ClearFlag (RTC_FLAG : Nat) (m : Machine) : Machine :=
  m.update .CRL (fun crl => crl &&& u16 (cnot RTC_FLAG))

/-- Function `RTC_GetITStatus`: `bitstatus` first holds `(ITStatus) (RTC->CRL & RTC_IT)`, the
masked status cast to the enumeration of width `w`; then CRH is tested against the same
mask and `bitstatus` against RESET. -/
def RTC_GetITStatus (w : EnumWidth) (RTC_IT : Nat) (m : Machine) : FlagStatus × Machine :=
  let (crl, m1) := m.load .CRL
  let bitstatus := castITStatus w (crl &&& RTC_IT)
  let (crh, m2) := m1.load .CRH
  if (crh &&& RTC_IT) ≠ 0 ∧ bitstatus ≠ 0 then (FlagStatus.SET, m2)
  else (FlagStatus.RESET, m2)

/-- Function `RTC_ClearITPendingBit`: `RTC->CRL &= (uint16_t) ~RTC_IT`. -/
def RTC_ClearITPendingBit (RTC_IT : Nat) (m : Machine) : Machine :=
  m.update .CRL (fun crl => crl &&& u16 (cnot RTC_IT))

/-! ## Trace entries of the polling loops -/

/-- The trace entry of poll number `k`: a load of CRL that reads the value `hw k` which the
hardware has put there. -/
def pollStep (hw : Nat → Nat) (s : RTC_TypeDef) (k : Nat) : Step :=
  ⟨Access.load Reg.CRL (u16 (hw k)), s.set Reg.CRL (u16 (hw k))⟩

/-- The trace entries of `cnt` successive polls, starting with poll number `k`. -/
def pollSteps (hw : Nat → Nat) (s : RTC_TypeDef) : Nat → Nat → List Step
  | _, 0 => []
  | k, cnt + 1 => pollStep hw s k :: pollSteps hw s (k + 1) cnt

/-! ## Sample hardware behaviour -/

/-- A hardware behaviour of CRL: the polls numbered below `n` read 0, every later poll
reads `v`. -/
def hwReadyAt (n v : Nat) : Nat → Nat :=
  fun k => if k < n then 0 else v

/-! ## Arithmetic of the machine integers -/

theorem u16_lt (x : Nat) : u16 x < 65536 := by
  unfold u16; omega

theorem u16_of_lt {x : Nat} (h : x < 65536) : u16 x = x := by
  unfold u16; omega

theorem testBit_u16 (x i : Nat) : (u16 x).testBit i = (decide (i < 16) && x.testBit i) := by
  have h : u16 x = x % 2 ^ 16 := rfl
  rw [h, Nat.testBit_mod_two_pow]

theorem testBit_of_lt_u16 {x : Nat} (h : x < 65536) {i : Nat} (hi : 16 ≤ i) :
    x.testBit i = false := by
  apply Nat.testBit_lt_two_pow
  calc x < 2 ^ 16 := h
    _ ≤ 2 ^ i := Nat.pow_le_pow_right (by decide) hi

theorem testBit_cnot (x i : Nat) :
    (cnot x).testBit i = (decide (i < 32) && !x.testBit i) := by
  have h1 : (0xFFFFFFFF : Nat) = 2 ^ 32 - 1 := by norm_num
  have h2 : u32 x = x % 2 ^ 32 := rfl
  unfold cnot
  rw [h1, h2, Nat.testBit_xor, Nat.testBit_two_pow_sub_one, Nat.testBit_mod_two_pow]
  by_cases h : i < 32 <;> simp [h]

/-- Bits of the operand `(uint16_t) ~mask`. -/
theorem testBit_u16_cnot (x i : Nat) :
    (u16 (cnot x)).testBit i = (decide (i < 16) && !x.testBit i) := by
  rw [testBit_u16, testBit_cnot]
  by_cases h : i < 16
  · have : i < 32 := by omega
    simp [h, this]
  · simp [h]

/-- For a 16-bit mask, `(uint16_t) ~mask` is the 16-bit complement. -/
theorem u16_cnot_eq {x : Nat} (h : x < 65536) : u16 (cnot x) = 0xFFFF ^^^ x := by
  apply Nat.eq_of_testBit_eq
  intro i
  have h1 : (0xFFFF : Nat) = 2 ^ 16 - 1 := by norm_num
  rw [testBit_u16_cnot, h1, Nat.testBit_xor, Nat.testBit_two_pow_sub_one]
  by_cases hi : i < 16
  · simp [hi]
  · simp [hi, testBit_of_lt_u16 h (Nat.le_of_not_lt hi)]

/-- A mask that is a single bit `k` tests that bit. -/
theorem and_two_pow_eq_zero (x k : Nat) : x &&& 2 ^ k = 0 ↔ x.testBit k = false := by
  constructor
  · intro h
    have := congrArg (fun y => y.testBit k) h
    simpa [Nat.testBit_two_pow_self] using this
  · intro h
    apply Nat.eq_of_testBit_eq
    intro i
    rw [Nat.testBit_and, Nat.testBit_two_pow, Nat.zero_testBit]
    by_cases hk : k = i
    · subst hk; simp [h]
    · simp [hk]

/-- High and low halves put together. -/
theorem shiftLeft_or_eq (h l : Nat) (hl : l < 65536) : (h <<< 16) ||| l = h * 65536 + l := by
  have := Nat.mul_add_lt_is_or (i := 16) (b := l) (by simpa using hl) h
  rw [Nat.shiftLeft_eq, Nat.mul_comm, ← this]

/-- The 32-bit value assembled from two 16-bit halves is the value that was split. -/
theorem join_split (v : Nat) (hv : v < 4294967296) :
    u32 (u32 (u16 (v >>> 16)) <<< 16) ||| u16 (v &&& RTC_LSB_Mask) = v := by
  have hm : v &&& RTC_LSB_Mask = v % 2 ^ 16 := by
    have : RTC_LSB_Mask = 2 ^ 16 - 1 := by norm_num [RTC_LSB_Mask]
    rw [this, Nat.and_pow_two_sub_one_eq_mod]
  have hlo : u16 (v &&& RTC_LSB_Mask) = v % 65536 := by
    rw [hm]; unfold u16; omega
  have hhi : u16 (v >>> 16) = v / 65536 := by
    rw [Nat.shiftRight_eq_div_pow]; unfold u16; omega
  have h32 : u32 (v / 65536) = v / 65536 := by unfold u32; omega
  rw [hlo, hhi, h32, Nat.shiftLeft_eq]
  have h33 : u32 (v / 65536 * 2 ^ 16) = (v / 65536) <<< 16 := by
    rw [Nat.shiftLeft_eq]; unfold u32; omega
  rw [h33, shiftLeft_or_eq _ _ (by omega)]
  omega

/-- Bits of the mask `CRL_CNF_Reset`: every bit of a 16-bit word except bit 4. -/
theorem testBit_CRL_CNF_Reset (i : Nat) :
    CRL_CNF_Reset.testBit i = (decide (i < 16) && !decide (i = 4)) := by
  have h : CRL_CNF_Reset = (2 ^ 16 - 1) ^^^ 2 ^ 4 := by decide
  rw [h, Nat.testBit_xor, Nat.testBit_two_pow_sub_one, Nat.testBit_two_pow]
  by_cases h4 : i = 4
  · subst h4; decide
  · have h4b : ¬ 4 = i := fun e => h4 e.symm
    simp [h4, h4b]

/-- Bits of the mask `CRL_CNF_Set`: bit 4 alone. -/
theorem testBit_CRL_CNF_Set (i : Nat) : CRL_CNF_Set.testBit i = decide (i = 4) := by
  have h : CRL_CNF_Set = 2 ^ 4 := by decide
  rw [h, Nat.testBit_two_pow]
  by_cases h4 : i = 4
  · subst h4; decide
  · have h4b : ¬ 4 = i := fun e => h4 e.symm
    simp [h4, h4b]

/-- Bits of the mask `PRLH_MSB_Mask`: bits 16 to 19. -/
theorem testBit_PRLH_MSB_Mask (i : Nat) :
    PRLH_MSB_Mask.testBit i = (decide (16 ≤ i) && decide (i < 20)) := by
  have h : PRLH_MSB_Mask = (2 ^ 4 - 1) <<< 16 := by decide
  rw [h, Nat.testBit_shiftLeft, Nat.testBit_two_pow_sub_one]
  by_cases h16 : 16 ≤ i
  · by_cases h20 : i < 20
    · have : i - 16 < 4 := by omega
      simp [h16, h20, this]
    · have : ¬ i - 16 < 4 := by omega
      simp [h16, h20, this]
  · simp [h16]

/-- The high half stored by `RTC_SetPrescaler`. -/
theorem prescaler_high (v : Nat) :
    u16 ((v &&& PRLH_MSB_Mask) >>> 16) = (v >>> 16) &&& 0xF := by
  apply Nat.eq_of_testBit_eq
  intro i
  have hF : (0xF : Nat) = 2 ^ 4 - 1 := by decide
  rw [testBit_u16, Nat.testBit_shiftRight, Nat.testBit_and, testBit_PRLH_MSB_Mask,
    Nat.testBit_and, Nat.testBit_shiftRight, hF, Nat.testBit_two_pow_sub_one]
  by_cases h4 : i < 4
  · have h1 : i < 16 := by omega
    have h2 : 16 + i < 20 := by omega
    simp [h4, h1, h2]
  · have h2 : ¬ 16 + i < 20 := by omega
    simp [h4, h2]

/-- The low half stored by the three setters. -/
theorem low_half (v : Nat) : u16 (v &&& RTC_LSB_Mask) = v &&& 0xFFFF := by
  have h : RTC_LSB_Mask = 2 ^ 16 - 1 := by decide
  have h2 : (0xFFFF : Nat) = 2 ^ 16 - 1 := by decide
  rw [h, h2, Nat.and_pow_two_sub_one_eq_mod]
  unfold u16; omega

/-- Bits of the value stored by a masked clear `R &= (uint16_t) ~mask` of a 16-bit
register. -/
theorem testBit_clear {c : Nat} (hc : c < 65536) (mask i : Nat) :
    (u16 (c &&& u16 (cnot mask))).testBit i = (c.testBit i && !mask.testBit i) := by
  rw [testBit_u16, Nat.testBit_and, testBit_u16_cnot]
  by_cases h16 : i < 16
  · simp [h16]
  · simp [h16, testBit_of_lt_u16 hc (Nat.le_of_not_lt h16)]

/-- The value stored by a masked clear of a 16-bit register is the old value and the 16-bit
complement of the mask. -/
theorem clear_eq {c : Nat} (hc : c < 65536) (mask : Nat) :
    u16 (c &&& u16 (cnot mask)) = c &&& (0xFFFF ^^^ mask) := by
  apply Nat.eq_of_testBit_eq
  intro i
  have h1 : (0xFFFF : Nat) = 2 ^ 16 - 1 := by decide
  rw [testBit_clear hc, Nat.testBit_and, h1, Nat.testBit_xor, Nat.testBit_two_pow_sub_one]
  by_cases h16 : i < 16
  · simp [h16]
  · simp [h16, testBit_of_lt_u16 hc (Nat.le_of_not_lt h16)]

/-- Reading another register after a replacement. -/
theorem get_set_of_ne (s : RTC_TypeDef) {r q : Reg} (v : Nat) (h : q ≠ r) :
    (s.set r v).get q = s.get q := by
  cases r <;> cases q <;> first | rfl | exact absurd rfl h

/-- Reading the replaced register. -/
theorem get_set_self (s : RTC_TypeDef) (r : Reg) (v : Nat) : (s.set r v).get r = v := by
  cases r <;> rfl

/-- The cast to `ITStatus` keeps every value below 256, whatever the width. -/
theorem castITStatus_of_lt (w : EnumWidth) {x : Nat} (h : x < 256) : castITStatus w x = x := by
  cases w <;> simp only [castITStatus] <;> omega

/-- The cast to `ITStatus` of a status masked with a mask below 256. -/
theorem castITStatus_and (w : EnumWidth) (x : Nat) {mask : Nat} (h : mask < 256) :
    castITStatus w (x &&& mask) = x &&& mask :=
  castITStatus_of_lt w (Nat.lt_of_le_of_lt Nat.and_le_right h)

/-- Function `RTC_GetITStatus` on a single-bit mask `2 ^ k` with `k < 8`. -/
theorem getITStatus_single (w : EnumWidth) (k : Nat) (hk : k < 8) (m : Machine) :
    ((RTC_GetITStatus w (2 ^ k) m).1 = FlagStatus.SET ↔
      (m.regs.CRL.testBit k = true ∧ m.regs.CRH.testBit k = true)) ∧
    ((RTC_GetITStatus w (2 ^ k) m).1 = FlagStatus.RESET ↔
      ¬ (m.regs.CRL.testBit k = true ∧ m.regs.CRH.testBit k = true)) ∧
    (RTC_GetITStatus w (2 ^ k) m).2.regs = m.regs ∧
    (RTC_GetITStatus w (2 ^ k) m).2.trace.map Step.acc = m.trace.map Step.acc ++
      [Access.load Reg.CRL m.regs.CRL, Access.load Reg.CRH m.regs.CRH] := by
  have hl := and_two_pow_eq_zero m.regs.CRL k
  have hh := and_two_pow_eq_zero m.regs.CRH k
  have h256 : 2 ^ k < 256 :=
    calc 2 ^ k < 2 ^ 8 := Nat.pow_lt_pow_right (by decide) hk
      _ = 256 := by decide
  simp only [RTC_GetITStatus, Machine.load, RTC_TypeDef.get, castITStatus_and w _ h256]
  by_cases h1 : m.regs.CRL.testBit k = true <;> by_cases h2 : m.regs.CRH.testBit k = true
  · have e1 : ¬ (m.regs.CRL &&& 2 ^ k = 0) := by rw [hl]; simp [h1]
    have e2 : ¬ (m.regs.CRH &&& 2 ^ k = 0) := by rw [hh]; simp [h2]
    simp [h1, h2, e1, e2]
  · have e2 : m.regs.CRH &&& 2 ^ k = 0 := by rw [hh]; simpa using h2
    simp [h1, h2, e2]
  · have e1 : m.regs.CRL &&& 2 ^ k = 0 := by rw [hl]; simpa using h1
    simp [h1, h2, e1]
  · have e1 : m.regs.CRL &&& 2 ^ k = 0 := by rw [hl]; simpa using h1
    simp [h1, h2, e1]

/-- The enabling branch of `RTC_ITConfig`. -/
theorem itConfig_enable (mask : Nat) (m : Machine) :
    RTC_ITConfig mask FunctionalState.ENABLE m
      = m.update Reg.CRH (fun crh => crh ||| mask) := by
  simp [RTC_ITConfig]

/-- The disabling branch of `RTC_ITConfig`. -/
theorem itConfig_disable (mask : Nat) (m : Machine) :
    RTC_ITConfig mask FunctionalState.DISABLE m
      = m.update Reg.CRH (fun crh => crh &&& u16 (cnot mask)) := by
  simp [RTC_ITConfig]

/-! ## The polling loop -/

/-- Replacing a register twice keeps the last value. -/
theorem set_set (s : RTC_TypeDef) (r : Reg) (a b : Nat) : (s.set r a).set r b = s.set r b := by
  cases r <;> rfl

theorem pollSteps_set (hw : Nat → Nat) (s : RTC_TypeDef) (a : Nat) (k cnt : Nat) :
    pollSteps hw (s.set Reg.CRL a) k cnt = pollSteps hw s k cnt := by
  induction cnt generalizing k with
  | zero => rfl
  | succ c ih => simp only [pollSteps, pollStep, set_set, ih]

theorem pollSteps_eq_map (hw : Nat → Nat) (s : RTC_TypeDef) (k cnt : Nat) :
    pollSteps hw s k cnt = (List.range cnt).map (fun j => pollStep hw s (k + j)) := by
  induction cnt generalizing k with
  | zero => rfl
  | succ c ih =>
    rw [pollSteps, ih, List.range_succ_eq_map, List.map_cons, List.map_map]
    congr 1
    apply List.map_congr_left
    intro j _
    simp only [Function.comp, Nat.succ_eq_add_one]
    congr 1
    omega

theorem pollSteps_isLoad (hw : Nat → Nat) (s : RTC_TypeDef) (k cnt : Nat) :
    ∀ st ∈ pollSteps hw s k cnt, st.acc.isWrite = false := by
  induction cnt generalizing k with
  | zero => intro st hst; simp [pollSteps] at hst
  | succ c ih =>
    intro st hst
    simp only [pollSteps, List.mem_cons] at hst
    rcases hst with rfl | h
    · rfl
    · exact ih _ st h

/-- One iteration of the polling loop. -/
theorem pollCRL_succ (flag : Nat) (hw : Nat → Nat) (fuel k : Nat) (m : Machine) :
    pollCRL flag hw (fuel + 1) k m =
      if (u16 (hw k) &&& flag) = 0 then
        pollCRL flag hw fuel (k + 1)
          ⟨m.regs.set Reg.CRL (u16 (hw k)), m.trace ++ [pollStep hw m.regs k]⟩
      else some ⟨m.regs.set Reg.CRL (u16 (hw k)), m.trace ++ [pollStep hw m.regs k]⟩ := rfl

/-- As long as every poll reads the flag clear, the loop does not leave. -/
theorem pollCRL_none (flag : Nat) (hw : Nat → Nat) (fuel k : Nat) (m : Machine)
    (h : ∀ i, i < fuel → u16 (hw (k + i)) &&& flag = 0) :
    pollCRL flag hw fuel k m = none := by
  induction fuel generalizing k m with
  | zero => rfl
  | succ f ih =>
    rw [pollCRL_succ, if_pos (by simpa using h 0 (Nat.succ_pos f))]
    apply ih
    intro i hi
    have := h (i + 1) (by omega)
    rwa [show k + 1 + i = k + (i + 1) by omega]

/-- The loop leaves at the first poll that reads the flag set, after `n` polls that read it
clear; the machine then holds the value of that poll in CRL and the `n + 1` loads in its
trace. -/
theorem pollCRL_some (flag : Nat) (hw : Nat → Nat) (n k : Nat) (m : Machine) (fuel : Nat)
    (h : ∀ i, i < n → u16 (hw (k + i)) &&& flag = 0)
    (hn : u16 (hw (k + n)) &&& flag ≠ 0) (hf : n < fuel) :
    pollCRL flag hw fuel k m
      = some ⟨m.regs.set Reg.CRL (u16 (hw (k + n))), m.trace ++ pollSteps hw m.regs k (n + 1)⟩ := by
  induction n generalizing k m fuel with
  | zero =>
    obtain ⟨f, rfl⟩ : ∃ f, fuel = f + 1 := ⟨fuel - 1, by omega⟩
    rw [pollCRL_succ, if_neg (by simpa using hn)]
    rfl
  | succ n ih =>
    obtain ⟨f, rfl⟩ : ∃ f, fuel = f + 1 := ⟨fuel - 1, by omega⟩
    rw [pollCRL_succ, if_pos (by simpa using h 0 (Nat.succ_pos n))]
    rw [ih (k + 1) _ f
      (fun i hi => by
        have := h (i + 1) (by omega)
        rwa [show k + 1 + i = k + (i + 1) by omega])
      (by rwa [show k + 1 + n = k + (n + 1) by omega]) (by omega)]
    simp only [set_set, pollSteps_set, List.append_assoc, List.singleton_append]
    rw [show k + 1 + n = k + (n + 1) by omega]
    rfl

/-- Whenever the loop leaves, it does so at a first poll that reads the flag set. -/
theorem pollCRL_sound (flag : Nat) (hw : Nat → Nat) (fuel : Nat) (m m' : Machine)
    (h : pollCRL flag hw fuel 0 m = some m') :
    ∃ n, n < fuel ∧ (∀ i, i < n → u16 (hw i) &&& flag = 0) ∧ u16 (hw n) &&& flag ≠ 0 ∧
      m' = ⟨m.regs.set Reg.CRL (u16 (hw n)), m.trace ++ pollSteps hw m.regs 0 (n + 1)⟩ := by
  by_cases hex : ∃ n, n < fuel ∧ u16 (hw n) &&& flag ≠ 0
  · obtain ⟨hlt, hset⟩ := Nat.find_spec hex
    refine ⟨Nat.find hex, hlt, ?_, hset, ?_⟩
    · intro i hi
      by_contra hne
      exact Nat.find_min hex hi ⟨by omega, hne⟩
    · have hclr : ∀ i, i < Nat.find hex → u16 (hw (0 + i)) &&& flag = 0 := by
        intro i hi
        by_contra hne
        rw [Nat.zero_add] at hne
        exact Nat.find_min hex hi ⟨by omega, hne⟩
      have := pollCRL_some flag hw (Nat.find hex) 0 m fuel hclr
        (by rwa [Nat.zero_add]) hlt
      rw [this, Nat.zero_add] at h
      exact (Option.some.inj h).symm
  · have hnone := pollCRL_none flag hw fuel 0 m (by
      intro i hi
      by_contra hne
      rw [Nat.zero_add] at hne
      exact hex ⟨i, hi, hne⟩)
    rw [hnone] at h
    exact absurd h (by simp)

/-- Writing back the value a register holds changes nothing. -/
theorem set_get_self (s : RTC_TypeDef) (r : Reg) : s.set r (s.get r) = s := by
  cases r <;> rfl

/-- The test of the polling loop of `RTC_WaitForSynchro` is the test of bit 3. -/
theorem rsf_clear_iff (x : Nat) : x &&& RTC_FLAG_RSF = 0 ↔ x.testBit 3 = false :=
  and_two_pow_eq_zero x 3

/-- The test of the polling loop of `RTC_WaitForLastTask` is the test of bit 5. -/
theorem rtoff_clear_iff (x : Nat) : x &&& RTC_FLAG_RTOFF = 0 ↔ x.testBit 5 = false :=
  and_two_pow_eq_zero x 5

theorem rsf_set_iff (x : Nat) : x &&& RTC_FLAG_RSF ≠ 0 ↔ x.testBit 3 = true := by
  rw [Ne, rsf_clear_iff]; simp

theorem rtoff_set_iff (x : Nat) : x &&& RTC_FLAG_RTOFF ≠ 0 ↔ x.testBit 5 = true := by
  rw [Ne, rtoff_clear_iff]; simp

/-- Function `RTC_WaitForSynchro` is the polling loop run after the update that clears RSF. -/
theorem waitForSynchro_eq (hw : Nat → Nat) (fuel : Nat) (m : Machine) :
    RTC_WaitForSynchro hw fuel m
      = pollCRL RTC_FLAG_RSF hw fuel 0
          ⟨m.regs.set Reg.CRL (u16 (m.regs.CRL &&& u16 (cnot RTC_FLAG_RSF))),
           m.trace ++ [⟨Access.update Reg.CRL m.regs.CRL
              (u16 (m.regs.CRL &&& u16 (cnot RTC_FLAG_RSF))), m.regs⟩]⟩ := rfl

/-- Bits of CRL after a configuration-mode bracket (set bit 4, later clear it). -/
theorem testBit_bracket (c i : Nat) :
    (u16 (u16 (c ||| CRL_CNF_Set) &&& CRL_CNF_Reset)).testBit i
      = (decide (i < 16) && !decide (i = 4) && c.testBit i) := by
  rw [testBit_u16, Nat.testBit_and, testBit_u16, Nat.testBit_or, testBit_CRL_CNF_Set,
    testBit_CRL_CNF_Reset]
  by_cases h16 : i < 16 <;> by_cases h4 : i = 4 <;> simp [h16, h4]

/-- The register bank left by `RTC_SetCounter`. -/
theorem setCounter_regs (v : Nat) (m : Machine) :
    (RTC_SetCounter v m).regs
      = { m.regs with
          CRL := u16 (u16 (m.regs.CRL ||| CRL_CNF_Set) &&& CRL_CNF_Reset),
          CNTH := u16 (v >>> 16),
          CNTL := u16 (v &&& RTC_LSB_Mask) } := rfl

/-- The trace left by `RTC_SetCounter`: four entries after the old trace. -/
theorem setCounter_trace (v : Nat) (m : Machine) :
    (RTC_SetCounter v m).trace = m.trace ++
      [⟨Access.update Reg.CRL m.regs.CRL (RTC_EnterConfigMode m).regs.CRL, m.regs⟩,
       ⟨Access.store Reg.CNTH (u16 (v >>> 16)), (RTC_EnterConfigMode m).regs⟩,
       ⟨Access.store Reg.CNTL (u16 (v &&& RTC_LSB_Mask)),
        ((RTC_EnterConfigMode m).store Reg.CNTH (v >>> 16)).regs⟩,
       ⟨Access.update Reg.CRL (RTC_EnterConfigMode m).regs.CRL (RTC_SetCounter v m).regs.CRL,
        (((RTC_EnterConfigMode m).store Reg.CNTH (v >>> 16)).store Reg.CNTL
          (v &&& RTC_LSB_Mask)).regs⟩] := by
  simp only [RTC_SetCounter, RTC_EnterConfigMode, RTC_ExitConfigMode, Machine.store,
    Machine.update, List.append_assoc, List.singleton_append]
  rfl

/-! ## The getters -/

/-- The value returned by `RTC_GetCounter` on 16-bit registers. -/
theorem getCounter_val (m : Machine) (h : m.regs.WF) :
    (RTC_GetCounter m).1 = m.regs.CNTH * 65536 + m.regs.CNTL := by
  have hH : m.regs.CNTH < 65536 := h.2.2.2.2.2.2.1
  have hL : m.regs.CNTL < 65536 := h.2.2.2.2.2.2.2.1
  simp only [RTC_GetCounter, Machine.load, RTC_TypeDef.get]
  have h1 : u32 m.regs.CNTH = m.regs.CNTH := by unfold u32; omega
  have h2 : u32 (m.regs.CNTH <<< 16) = m.regs.CNTH <<< 16 := by
    rw [Nat.shiftLeft_eq]; unfold u32; omega
  rw [h1, h2, shiftLeft_or_eq _ _ hL]

/-- The masked high half read by `RTC_GetDivider`. -/
theorem divider_high (d : Nat) : u32 ((u32 d &&& 0x000F) <<< 16) = (d &&& 0xF) <<< 16 := by
  have hF : (0xF : Nat) = 2 ^ 4 - 1 := by decide
  have e1 : u32 d &&& 0x000F = d &&& 0xF := by
    rw [hF, Nat.and_pow_two_sub_one_eq_mod, Nat.and_pow_two_sub_one_eq_mod]
    unfold u32; omega
  rw [e1, hF, Nat.and_pow_two_sub_one_eq_mod, Nat.shiftLeft_eq]
  unfold u32; omega

/-- The value returned by `RTC_GetDivider`. -/
theorem getDivider_val (m : Machine) :
    (RTC_GetDivider m).1 = ((m.regs.DIVH &&& 0xF) <<< 16) ||| m.regs.DIVL := by
  simp only [RTC_GetDivider, Machine.load, RTC_TypeDef.get]
  rw [divider_high]

/-- The register bank and the accesses of `RTC_GetDivider`. -/
theorem getDivider_frame (m : Machine) :
    (RTC_GetDivider m).2.regs = m.regs ∧
    (RTC_GetDivider m).2.trace.map Step.acc = m.trace.map Step.acc ++
      [Access.load Reg.DIVH m.regs.DIVH, Access.load Reg.DIVL m.regs.DIVL] := by
  simp [RTC_GetDivider, Machine.load, RTC_TypeDef.get]

/-! ## Masked clears and status queries -/

/-- After a masked clear no bit of the mask is left in the register. -/
theorem clear_and_mask (c mask : Nat) : u16 (c &&& u16 (cnot mask)) &&& mask = 0 := by
  apply Nat.eq_of_testBit_eq
  intro i
  rw [Nat.testBit_and, testBit_u16, Nat.testBit_and, testBit_u16_cnot, Nat.zero_testBit]
  cases mask.testBit i <;> simp

/-- A masked clear done twice stores the same value as done once. -/
theorem clear_clear (c mask : Nat) :
    u16 (u16 (c &&& u16 (cnot mask)) &&& u16 (cnot mask)) = u16 (c &&& u16 (cnot mask)) := by
  apply Nat.eq_of_testBit_eq
  intro i
  simp only [testBit_u16, Nat.testBit_and]
  cases decide (i < 16) <;> cases c.testBit i <;> cases (cnot mask).testBit i <;> rfl

/-- A number is non-zero exactly when one of its bits is set. -/
theorem ne_zero_iff_exists_testBit (x : Nat) : x ≠ 0 ↔ ∃ i, x.testBit i = true := by
  constructor
  · exact Nat.ne_zero_implies_bit_true
  · rintro ⟨i, hi⟩ h0
    rw [h0, Nat.zero_testBit] at hi
    exact absurd hi (by decide)

/-- The result of `RTC_GetITStatus` for an arbitrary mask and enumeration width. -/
theorem getITStatus_set_iff (w : EnumWidth) (mask : Nat) (m : Machine) :
    (RTC_GetITStatus w mask m).1 = FlagStatus.SET ↔
      (m.regs.CRH &&& mask ≠ 0 ∧ castITStatus w (m.regs.CRL &&& mask) ≠ 0) := by
  simp only [RTC_GetITStatus, Machine.load, RTC_TypeDef.get]
  by_cases h : m.regs.CRH &&& mask ≠ 0 ∧ castITStatus w (m.regs.CRL &&& mask) ≠ 0
  · rw [if_pos h]; simp [h]
  · rw [if_neg h]; simp [h]

/-- The width of the enumeration matters only for masks with no bit below bit 8: with
mask = CRL = CRH = 0x0100 a one-byte `ITStatus` gives RESET, an `int`-wide one SET. -/
theorem getITStatus_width (m : Machine) (hl : m.regs.CRL = 0x0100) (hh : m.regs.CRH = 0x0100) :
    (RTC_GetITStatus EnumWidth.byte 0x0100 m).1 = FlagStatus.RESET ∧
    (RTC_GetITStatus EnumWidth.word 0x0100 m).1 = FlagStatus.SET := by
  constructor
  · have hns : ¬ (RTC_GetITStatus EnumWidth.byte 0x0100 m).1 = FlagStatus.SET := by
      rw [getITStatus_set_iff, hl]
      exact fun hc => hc.2 (by decide)
    cases hr : (RTC_GetITStatus EnumWidth.byte 0x0100 m).1
    · rfl
    · exact absurd hr hns
  · rw [getITStatus_set_iff, hl, hh]
    exact ⟨by decide, by decide⟩

/-- The register bank left by a configuration-mode bracket around two stores, on a 16-bit
CRL: bit 4 of CRL cleared. -/
theorem bracket_eq {c : Nat} (hc : c < 65536) :
    u16 (u16 (c ||| CRL_CNF_Set) &&& CRL_CNF_Reset) = c &&& 0xFFEF := by
  apply Nat.eq_of_testBit_eq
  intro i
  rw [testBit_bracket]
  show _ = (c &&& CRL_CNF_Reset).testBit i
  rw [Nat.testBit_and, testBit_CRL_CNF_Reset]
  by_cases h16 : i < 16
  · simp [h16, Bool.and_comm]
  · simp [h16, testBit_of_lt_u16 hc (Nat.le_of_not_lt h16)]

/-- The register bank left by `RTC_SetPrescaler`. -/
theorem setPrescaler_regs (v : Nat) (m : Machine) :
    (RTC_SetPrescaler v m).regs
      = { m.regs with
          CRL := u16 (u16 (m.regs.CRL ||| CRL_CNF_Set) &&& CRL_CNF_Reset),
          PRLH := u16 ((v &&& PRLH_MSB_Mask) >>> 16),
          PRLL := u16 (v &&& RTC_LSB_Mask) } := rfl

/-- The register bank left by `RTC_SetAlarm`. -/
theorem setAlarm_regs (v : Nat) (m : Machine) :
    (RTC_SetAlarm v m).regs
      = { m.regs with
          CRL := u16 (u16 (m.regs.CRL ||| CRL_CNF_Set) &&& CRL_CNF_Reset),
          ALRH := u16 (v >>> 16),
          ALRL := u16 (v &&& RTC_LSB_Mask) } := rfl

/-! ## Claims -/

/-- C1: for every 32-bit value `v` and every register bank, `RTC_SetCounter v` followed by
`RTC_GetCounter` (on the plain register bank, no hardware tick in between) returns exactly
`v`; for `0xFFFFFFFF` the registers CNTH and CNTL both hold `0xFFFF` afterwards and
`RTC_GetCounter` returns `0xFFFFFFFF`. -/
theorem C1_setCounter_getCounter (v : Nat) (hv : v < 4294967296) (m : Machine) :
    (RTC_GetCounter (RTC_SetCounter v m)).1 = v ∧
    (RTC_SetCounter 0xFFFFFFFF m).regs.CNTH = 0xFFFF ∧
    (RTC_SetCounter 0xFFFFFFFF m).regs.CNTL = 0xFFFF ∧
    (RTC_GetCounter (RTC_SetCounter 0xFFFFFFFF m)).1 = 0xFFFFFFFF := by
  have key : ∀ w, w < 4294967296 → (RTC_GetCounter (RTC_SetCounter w m)).1 = w := by
    intro w hw
    simp only [RTC_GetCounter, RTC_SetCounter, RTC_EnterConfigMode, RTC_ExitConfigMode,
      Machine.load, Machine.store, Machine.update, RTC_TypeDef.get, RTC_TypeDef.set]
    exact join_split w hw
  refine ⟨key v hv, ?_, ?_, key _ (by norm_num)⟩
  · simp only [RTC_SetCounter, RTC_EnterConfigMode, RTC_ExitConfigMode,
      Machine.store, Machine.update, RTC_TypeDef.get, RTC_TypeDef.set]
    decide
  · simp only [RTC_SetCounter, RTC_EnterConfigMode, RTC_ExitConfigMode,
      Machine.store, Machine.update, RTC_TypeDef.get, RTC_TypeDef.set]
    decide

/-- Witness of C1 at `v = 0x12345678` on the all-zero register bank. -/
theorem C1_setCounter_getCounter_witness :
    (0x12345678 : Nat) < 4294967296 ∧
    (RTC_GetCounter (RTC_SetCounter 0x12345678 ⟨⟨0, 0, 0, 0, 0, 0, 0, 0, 0, 0⟩, []⟩)).1
        = 0x12345678 :=
  ⟨by decide,
   (C1_setCounter_getCounter 0x12345678 (by decide) ⟨⟨0, 0, 0, 0, 0, 0, 0, 0, 0, 0⟩, []⟩).1⟩

/-- C2: for every value `v` (in particular every 32-bit one) and every register bank, after
`RTC_SetPrescaler v` the register PRLH holds `(v >> 16) & 0xF` (bits 16 to 19 of `v`; its
upper 12 bits are zero, and bits 20 and above of `v` are discarded) and PRLL holds
`v & 0xFFFF`; `RTC_SetPrescaler 0x7FFF` leaves PRLH = 0 and PRLL = 0x7FFF. -/
theorem C2_setPrescaler_registers (v : Nat) (m : Machine) :
    (RTC_SetPrescaler v m).regs.PRLH = (v >>> 16) &&& 0xF ∧
    (RTC_SetPrescaler v m).regs.PRLL = v &&& 0xFFFF ∧
    (∀ i, 4 ≤ i → (RTC_SetPrescaler v m).regs.PRLH.testBit i = false) ∧
    (RTC_SetPrescaler v m).regs.PRLH = (v % 1048576) / 65536 ∧
    (RTC_SetPrescaler 0x7FFF m).regs.PRLH = 0 ∧
    (RTC_SetPrescaler 0x7FFF m).regs.PRLL = 0x7FFF := by
  have hH : ∀ w, (RTC_SetPrescaler w m).regs.PRLH = (w >>> 16) &&& 0xF := by
    intro w
    simp only [RTC_SetPrescaler, RTC_EnterConfigMode, RTC_ExitConfigMode,
      Machine.store, Machine.update, RTC_TypeDef.get, RTC_TypeDef.set]
    exact prescaler_high w
  have hL : ∀ w, (RTC_SetPrescaler w m).regs.PRLL = w &&& 0xFFFF := by
    intro w
    simp only [RTC_SetPrescaler, RTC_EnterConfigMode, RTC_ExitConfigMode,
      Machine.store, Machine.update, RTC_TypeDef.get, RTC_TypeDef.set]
    exact low_half w
  have hF : (0xF : Nat) = 2 ^ 4 - 1 := by decide
  refine ⟨hH v, hL v, ?_, ?_, ?_, ?_⟩
  · intro i hi
    rw [hH, Nat.testBit_and, hF, Nat.testBit_two_pow_sub_one]
    have : ¬ i < 4 := by omega
    simp [this]
  · rw [hH, hF, Nat.and_pow_two_sub_one_eq_mod, Nat.shiftRight_eq_div_pow]
    omega
  · rw [hH]; decide
  · rw [hL]; decide

/-- C3: on a register bank of 16-bit registers, `RTC_EnterConfigMode` sets bit 4 of CRL
(mask `0x0010`) and `RTC_ExitConfigMode` clears it; every other bit of CRL and every other
register keep their values. -/
theorem C3_configMode_bit4 (m : Machine) (h : m.regs.WF) :
    (RTC_EnterConfigMode m).regs = { m.regs with CRL := m.regs.CRL ||| 0x0010 } ∧
    (∀ i, (RTC_EnterConfigMode m).regs.CRL.testBit i
        = (decide (i = 4) || m.regs.CRL.testBit i)) ∧
    (∀ r, r ≠ Reg.CRL → (RTC_EnterConfigMode m).regs.get r = m.regs.get r) ∧
    (RTC_ExitConfigMode m).regs = { m.regs with CRL := m.regs.CRL &&& 0xFFEF } ∧
    (∀ i, (RTC_ExitConfigMode m).regs.CRL.testBit i
        = (!decide (i = 4) && m.regs.CRL.testBit i)) ∧
    (∀ r, r ≠ Reg.CRL → (RTC_ExitConfigMode m).regs.get r = m.regs.get r) := by
  have hc : m.regs.CRL < 65536 := h.2.1
  have hor : u16 (m.regs.CRL ||| CRL_CNF_Set) = m.regs.CRL ||| CRL_CNF_Set :=
    u16_of_lt (Nat.or_lt_two_pow (n := 16) hc (by decide))
  have hand : u16 (m.regs.CRL &&& CRL_CNF_Reset) = m.regs.CRL &&& CRL_CNF_Reset :=
    u16_of_lt (Nat.and_lt_two_pow (n := 16) _ (by decide))
  have hE : (RTC_EnterConfigMode m).regs = { m.regs with CRL := m.regs.CRL ||| 0x0010 } := by
    simp only [RTC_EnterConfigMode, Machine.update, RTC_TypeDef.get, RTC_TypeDef.set, hor]
    rfl
  have hX : (RTC_ExitConfigMode m).regs = { m.regs with CRL := m.regs.CRL &&& 0xFFEF } := by
    simp only [RTC_ExitConfigMode, Machine.update, RTC_TypeDef.get, RTC_TypeDef.set, hand]
    rfl
  refine ⟨hE, ?_, ?_, hX, ?_, ?_⟩
  · intro i
    rw [hE]
    show (m.regs.CRL ||| CRL_CNF_Set).testBit i = _
    rw [Nat.testBit_or, testBit_CRL_CNF_Set, Bool.or_comm]
  · intro r hr
    rw [hE]
    cases r <;> first | rfl | exact absurd rfl hr
  · intro i
    rw [hX]
    show (m.regs.CRL &&& CRL_CNF_Reset).testBit i = _
    rw [Nat.testBit_and, testBit_CRL_CNF_Reset]
    by_cases h16 : i < 16
    · simp [h16, Bool.and_comm]
    · simp [h16, testBit_of_lt_u16 hc (Nat.le_of_not_lt h16)]
  · intro r hr
    rw [hX]
    cases r <;> first | rfl | exact absurd rfl hr

/-- Witness of C3 on a register bank with CRL = 0x0028. -/
theorem C3_configMode_bit4_witness :
    (⟨⟨0, 0x0028, 0, 0, 0, 0, 0, 0, 0, 0⟩, []⟩ : Machine).regs.WF ∧
    (RTC_EnterConfigMode ⟨⟨0, 0x0028, 0, 0, 0, 0, 0, 0, 0, 0⟩, []⟩).regs
      = { (⟨⟨0, 0x0028, 0, 0, 0, 0, 0, 0, 0, 0⟩, []⟩ : Machine).regs with
          CRL := (⟨⟨0, 0x0028, 0, 0, 0, 0, 0, 0, 0, 0⟩, []⟩ : Machine).regs.CRL ||| 0x0010 } :=
  ⟨by decide, (C3_configMode_bit4 ⟨⟨0, 0x0028, 0, 0, 0, 0, 0, 0, 0, 0⟩, []⟩ (by decide)).1⟩

/-- C4: for every value `v` and every initial machine, each of `RTC_SetCounter`,
`RTC_SetPrescaler` and `RTC_SetAlarm` adds exactly four accesses to the trace, in this
order: the update of CRL that sets bit 4, the store to the high-half register, the store to
the low-half register, the update of CRL that clears bit 4.  The values of CRL at the
moment of the four accesses are `c, c1, c1, c1` with bit 4 of `c1` set, so the
configuration-mode bit is 1 at both half-register stores, and it is 0 in the final CRL. -/
theorem C4_setters_access_order (v : Nat) (m : Machine) :
    let c := m.regs.CRL
    let c1 := u16 (c ||| 0x0010)
    let c2 := u16 (c1 &&& 0xFFEF)
    c1.testBit 4 = true ∧ c2.testBit 4 = false ∧
    ((RTC_SetCounter v m).trace.map Step.acc = m.trace.map Step.acc ++
        [Access.update Reg.CRL c c1, Access.store Reg.CNTH (u16 (v >>> 16)),
         Access.store Reg.CNTL (u16 (v &&& 0xFFFF)), Access.update Reg.CRL c1 c2] ∧
      (RTC_SetCounter v m).trace.take m.trace.length = m.trace ∧
      ((RTC_SetCounter v m).trace.drop m.trace.length).map (fun st => st.pre.CRL)
        = [c, c1, c1, c1] ∧
      (RTC_SetCounter v m).regs.CRL = c2) ∧
    ((RTC_SetPrescaler v m).trace.map Step.acc = m.trace.map Step.acc ++
        [Access.update Reg.CRL c c1, Access.store Reg.PRLH (u16 ((v &&& 0x000F0000) >>> 16)),
         Access.store Reg.PRLL (u16 (v &&& 0xFFFF)), Access.update Reg.CRL c1 c2] ∧
      (RTC_SetPrescaler v m).trace.take m.trace.length = m.trace ∧
      ((RTC_SetPrescaler v m).trace.drop m.trace.length).map (fun st => st.pre.CRL)
        = [c, c1, c1, c1] ∧
      (RTC_SetPrescaler v m).regs.CRL = c2) ∧
    ((RTC_SetAlarm v m).trace.map Step.acc = m.trace.map Step.acc ++
        [Access.update Reg.CRL c c1, Access.store Reg.ALRH (u16 (v >>> 16)),
         Access.store Reg.ALRL (u16 (v &&& 0xFFFF)), Access.update Reg.CRL c1 c2] ∧
      (RTC_SetAlarm v m).trace.take m.trace.length = m.trace ∧
      ((RTC_SetAlarm v m).trace.drop m.trace.length).map (fun st => st.pre.CRL)
        = [c, c1, c1, c1] ∧
      (RTC_SetAlarm v m).regs.CRL = c2) := by
  intro c c1 c2
  have hb1 : c1.testBit 4 = true := by
    show (u16 (m.regs.CRL ||| CRL_CNF_Set)).testBit 4 = true
    rw [testBit_u16, Nat.testBit_or, testBit_CRL_CNF_Set]
    simp
  have hb2 : c2.testBit 4 = false := by
    show (u16 (c1 &&& CRL_CNF_Reset)).testBit 4 = false
    rw [testBit_u16, Nat.testBit_and, testBit_CRL_CNF_Reset]
    simp
  refine ⟨hb1, hb2, ⟨?_, ?_, ?_, ?_⟩, ⟨?_, ?_, ?_, ?_⟩, ⟨?_, ?_, ?_, ?_⟩⟩ <;>
    simp [RTC_SetCounter, RTC_SetPrescaler, RTC_SetAlarm, RTC_EnterConfigMode,
      RTC_ExitConfigMode, Machine.store, Machine.update, RTC_TypeDef.get, RTC_TypeDef.set,
      CRL_CNF_Set, CRL_CNF_Reset, RTC_LSB_Mask, PRLH_MSB_Mask, c, c1, c2]

/-- C5: for every register bank, either width of the enumeration `ITStatus` and each single
interrupt source (`RTC_IT_SEC` = bit 0, `RTC_IT_ALR` = bit 1, `RTC_IT_OW` = bit 2),
`RTC_GetITStatus` returns SET exactly when the bit of the source is set both in CRL
(status) and in CRH (enable), RESET otherwise (only one of the two set, or neither); it
changes no register: its only accesses are a load of CRL and a load of CRH. -/
theorem C5_getITStatus_single_source (w : EnumWidth) (m : Machine) :
    ∀ p ∈ [(RTC_IT_SEC, 0), (RTC_IT_ALR, 1), (RTC_IT_OW, 2)],
      p.1 = 2 ^ p.2 ∧
      ((RTC_GetITStatus w p.1 m).1 = FlagStatus.SET ↔
        (m.regs.CRL.testBit p.2 = true ∧ m.regs.CRH.testBit p.2 = true)) ∧
      ((RTC_GetITStatus w p.1 m).1 = FlagStatus.RESET ↔
        ¬ (m.regs.CRL.testBit p.2 = true ∧ m.regs.CRH.testBit p.2 = true)) ∧
      (RTC_GetITStatus w p.1 m).2.regs = m.regs ∧
      (RTC_GetITStatus w p.1 m).2.trace.map Step.acc = m.trace.map Step.acc ++
        [Access.load Reg.CRL m.regs.CRL, Access.load Reg.CRH m.regs.CRH] := by
  intro p hp
  simp only [List.mem_cons, List.mem_singleton, List.not_mem_nil, or_false] at hp
  rcases hp with rfl | rfl | rfl
  · exact ⟨by decide, getITStatus_single w 0 (by decide) m⟩
  · exact ⟨by decide, getITStatus_single w 1 (by decide) m⟩
  · exact ⟨by decide, getITStatus_single w 2 (by decide) m⟩

/-- Witness of C5: the alarm source with its flag set in CRL and its enable set in CRH,
with a one-byte enumeration. -/
theorem C5_getITStatus_single_source_witness :
    (RTC_IT_ALR, 1) ∈ [(RTC_IT_SEC, 0), (RTC_IT_ALR, 1), (RTC_IT_OW, 2)] ∧
    ((RTC_GetITStatus EnumWidth.byte RTC_IT_ALR
        ⟨⟨0x0002, 0x0002, 0, 0, 0, 0, 0, 0, 0, 0⟩, []⟩).1 = FlagStatus.SET ↔
      ((0x0002 : Nat).testBit 1 = true ∧ (0x0002 : Nat).testBit 1 = true)) :=
  ⟨by decide,
   (C5_getITStatus_single_source EnumWidth.byte ⟨⟨0x0002, 0x0002, 0, 0, 0, 0, 0, 0, 0, 0⟩, []⟩
      (RTC_IT_ALR, 1) (by decide)).2.1⟩

/-- C6: on a register bank of 16-bit registers and for every mask (every 16-bit mask in
particular, where `0xFFFF ^^^ mask` is NOT mask), `RTC_ClearFlag` leaves CRL equal to the old CRL AND NOT mask: every bit of CRL in the mask is 0, every
bit of CRL outside the mask keeps its value, and every other register (CRH included) is
unchanged. -/
theorem C6_clearFlag_masked (mask : Nat) (m : Machine) (h : m.regs.WF) :
    (RTC_ClearFlag mask m).regs = { m.regs with CRL := m.regs.CRL &&& (0xFFFF ^^^ mask) } ∧
    (∀ i, mask.testBit i = true → (RTC_ClearFlag mask m).regs.CRL.testBit i = false) ∧
    (∀ i, mask.testBit i = false →
      (RTC_ClearFlag mask m).regs.CRL.testBit i = m.regs.CRL.testBit i) ∧
    (RTC_ClearFlag mask m).regs.CRH = m.regs.CRH ∧
    (∀ r, r ≠ Reg.CRL → (RTC_ClearFlag mask m).regs.get r = m.regs.get r) := by
  have hc : m.regs.CRL < 65536 := h.2.1
  have hbit : ∀ i, (RTC_ClearFlag mask m).regs.CRL.testBit i
      = (m.regs.CRL.testBit i && !mask.testBit i) := by
    intro i
    simp only [RTC_ClearFlag, Machine.update, RTC_TypeDef.get, RTC_TypeDef.set]
    exact testBit_clear hc mask i
  refine ⟨?_, ?_, ?_, rfl, ?_⟩
  · simp only [RTC_ClearFlag, Machine.update, RTC_TypeDef.get, RTC_TypeDef.set,
      clear_eq hc]
  · intro i hi
    rw [hbit, hi]; simp
  · intro i hi
    rw [hbit, hi]; simp
  · intro r hr
    simp only [RTC_ClearFlag, Machine.update]
    exact get_set_of_ne _ _ hr

/-- Witness of C6: clearing the alarm and second flags of CRL = 0x002F. -/
theorem C6_clearFlag_masked_witness :
    (⟨⟨0x0007, 0x002F, 0, 0, 0, 0, 0, 0, 0, 0⟩, []⟩ : Machine).regs.WF ∧
    (RTC_ClearFlag 0x0003 ⟨⟨0x0007, 0x002F, 0, 0, 0, 0, 0, 0, 0, 0⟩, []⟩).regs
      = { (⟨⟨0x0007, 0x002F, 0, 0, 0, 0, 0, 0, 0, 0⟩, []⟩ : Machine).regs with
          CRL := 0x002F &&& (0xFFFF ^^^ 0x0003) } :=
  ⟨by decide,
   (C6_clearFlag_masked 0x0003 ⟨⟨0x0007, 0x002F, 0, 0, 0, 0, 0, 0, 0, 0⟩, []⟩
      (by decide)).1⟩

/-- C7: on a register bank of 16-bit registers and for every 16-bit mask,
`RTC_ITConfig mask ENABLE` leaves CRH = old CRH OR mask and `RTC_ITConfig mask DISABLE`
leaves CRH = old CRH AND NOT mask; CRL and every other register are unchanged.  Starting
from CRH = 0, enabling OW and ALR gives CRH = 0x0006, and disabling OW afterwards gives
CRH = 0x0002. -/
theorem C7_itConfig_bits (mask : Nat) (hmask : mask < 65536) (m : Machine)
    (h : m.regs.WF) :
    (RTC_ITConfig mask FunctionalState.ENABLE m).regs
      = { m.regs with CRH := m.regs.CRH ||| mask } ∧
    (RTC_ITConfig mask FunctionalState.DISABLE m).regs
      = { m.regs with CRH := m.regs.CRH &&& (0xFFFF ^^^ mask) } ∧
    (∀ i, (RTC_ITConfig mask FunctionalState.DISABLE m).regs.CRH.testBit i
      = (m.regs.CRH.testBit i && !mask.testBit i)) ∧
    (∀ st r, r ≠ Reg.CRH → (RTC_ITConfig mask st m).regs.get r = m.regs.get r) ∧
    (∀ st, (RTC_ITConfig mask st m).regs.CRL = m.regs.CRL) ∧
    (m.regs.CRH = 0 →
      (RTC_ITConfig (RTC_IT_OW ||| RTC_IT_ALR) FunctionalState.ENABLE m).regs.CRH = 0x0006 ∧
      (RTC_ITConfig RTC_IT_OW FunctionalState.DISABLE
        (RTC_ITConfig (RTC_IT_OW ||| RTC_IT_ALR) FunctionalState.ENABLE m)).regs.CRH
          = 0x0002) := by
  have hc : m.regs.CRH < 65536 := h.1
  have hor : u16 (m.regs.CRH ||| mask) = m.regs.CRH ||| mask :=
    u16_of_lt (Nat.or_lt_two_pow (n := 16) hc hmask)
  refine ⟨?_, ?_, ?_, ?_, ?_, ?_⟩
  · simp only [itConfig_enable, Machine.update, RTC_TypeDef.get, RTC_TypeDef.set, hor]
  · simp only [itConfig_disable, Machine.update, RTC_TypeDef.get, RTC_TypeDef.set,
      clear_eq hc]
  · intro i
    simp only [itConfig_disable, Machine.update, RTC_TypeDef.get, RTC_TypeDef.set]
    exact testBit_clear hc mask i
  · intro st r hr
    cases st
    · rw [itConfig_disable]; exact get_set_of_ne _ _ hr
    · rw [itConfig_enable]; exact get_set_of_ne _ _ hr
  · intro st
    cases st
    · rw [itConfig_disable]; rfl
    · rw [itConfig_enable]; rfl
  · intro h0
    simp only [itConfig_enable, itConfig_disable, Machine.update, RTC_TypeDef.get,
      RTC_TypeDef.set, h0]
    constructor <;> decide

/-- Witness of C7: the end-to-end scenario on the all-zero register bank. -/
theorem C7_itConfig_bits_witness :
    (0x0006 : Nat) < 65536 ∧
    (⟨⟨0, 0, 0, 0, 0, 0, 0, 0, 0, 0⟩, []⟩ : Machine).regs.WF ∧
    (⟨⟨0, 0, 0, 0, 0, 0, 0, 0, 0, 0⟩, []⟩ : Machine).regs.CRH = 0 ∧
    (RTC_ITConfig (RTC_IT_OW ||| RTC_IT_ALR) FunctionalState.ENABLE
      ⟨⟨0, 0, 0, 0, 0, 0, 0, 0, 0, 0⟩, []⟩).regs.CRH = 0x0006 ∧
    (RTC_ITConfig RTC_IT_OW FunctionalState.DISABLE
      (RTC_ITConfig (RTC_IT_OW ||| RTC_IT_ALR) FunctionalState.ENABLE
        ⟨⟨0, 0, 0, 0, 0, 0, 0, 0, 0, 0⟩, []⟩)).regs.CRH = 0x0002 :=
  ⟨by decide, by decide, rfl,
   (C7_itConfig_bits 0x0006 (by decide) ⟨⟨0, 0, 0, 0, 0, 0, 0, 0, 0, 0⟩, []⟩
      (by decide)).2.2.2.2.2 rfl⟩

/-- C8: with the hardware given as a stream `hw` of the CRL values seen by the successive
polls, `RTC_WaitForSynchro` first updates CRL to `c1`, the value `c` it read with the RSF
bit (bit 3, `RTC_FLAG_RSF = 0x0008`) cleared and every other bit kept, before any poll.
While every poll so far has read RSF = 0 it does not return; it returns at the first poll
that reads RSF = 1, with that value in CRL and the update followed by the loads in its
trace.  Whenever it returns, the last CRL value it read has RSF = 1 and all earlier polls
read RSF = 0. -/
theorem C8_waitForSynchro_polls (hw : Nat → Nat) (m : Machine) (n : Nat)
    (hclr : ∀ i, i < n → (u16 (hw i)).testBit 3 = false) :
    let c := m.regs.CRL
    let c1 := u16 (c &&& u16 (cnot RTC_FLAG_RSF))
    let first : Step := ⟨Access.update Reg.CRL c c1, m.regs⟩
    RTC_FLAG_RSF = 0x0008 ∧
    c1.testBit 3 = false ∧
    (∀ i, i < 16 → i ≠ 3 → c1.testBit i = c.testBit i) ∧
    (∀ fuel, fuel ≤ n → RTC_WaitForSynchro hw fuel m = none) ∧
    ((u16 (hw n)).testBit 3 = true → ∀ fuel, n < fuel →
      RTC_WaitForSynchro hw fuel m
        = some ⟨m.regs.set Reg.CRL (u16 (hw n)),
            m.trace ++ first :: (List.range (n + 1)).map (fun k => pollStep hw m.regs k)⟩) ∧
    (∀ fuel m', RTC_WaitForSynchro hw fuel m = some m' →
      ∃ k, k < fuel ∧ (∀ i, i < k → (u16 (hw i)).testBit 3 = false) ∧
        m'.regs.CRL = u16 (hw k) ∧ m'.regs.CRL.testBit 3 = true ∧
        m'.trace
          = m.trace ++ first :: (List.range (k + 1)).map (fun j => pollStep hw m.regs j)) := by
  intro c c1 first
  have hsome : ∀ k fuel, (∀ i, i < k → (u16 (hw i)).testBit 3 = false) →
      (u16 (hw k)).testBit 3 = true → k < fuel →
      RTC_WaitForSynchro hw fuel m
        = some ⟨m.regs.set Reg.CRL (u16 (hw k)),
            m.trace ++ first :: (List.range (k + 1)).map (fun j => pollStep hw m.regs j)⟩ := by
    intro k fuel h0 h1 hf
    rw [waitForSynchro_eq, pollCRL_some RTC_FLAG_RSF hw k 0 _ fuel
      (fun i hi => by rw [Nat.zero_add]; exact (rsf_clear_iff _).2 (h0 i hi))
      (by rw [Nat.zero_add]; exact (rsf_set_iff _).2 h1) hf]
    simp only [set_set, pollSteps_set, pollSteps_eq_map, Nat.zero_add, List.append_assoc,
      List.singleton_append]
    rfl
  refine ⟨rfl, ?_, ?_, ?_, ?_, ?_⟩
  · show (u16 (m.regs.CRL &&& u16 (cnot RTC_FLAG_RSF))).testBit 3 = false
    rw [testBit_u16, Nat.testBit_and, testBit_u16_cnot]
    have : RTC_FLAG_RSF.testBit 3 = true := by decide
    simp [this]
  · intro i hi h3
    show (u16 (m.regs.CRL &&& u16 (cnot RTC_FLAG_RSF))).testBit i = m.regs.CRL.testBit i
    rw [testBit_u16, Nat.testBit_and, testBit_u16_cnot]
    have : RTC_FLAG_RSF.testBit i = false := by
      have h8 : RTC_FLAG_RSF = 2 ^ 3 := by decide
      rw [h8, Nat.testBit_two_pow_of_ne (fun e => h3 e.symm)]
    simp [this, hi]
  · intro fuel hf
    rw [waitForSynchro_eq]
    apply pollCRL_none
    intro i hi
    rw [Nat.zero_add]
    exact (rsf_clear_iff _).2 (hclr i (by omega))
  · intro hn fuel hf
    exact hsome n fuel hclr hn hf
  · intro fuel m' hm'
    rw [waitForSynchro_eq] at hm'
    obtain ⟨k, hk, h0, h1, _⟩ := pollCRL_sound _ _ _ _ _ hm'
    have h0b : ∀ i, i < k → (u16 (hw i)).testBit 3 = false :=
      fun i hi => (rsf_clear_iff _).1 (h0 i hi)
    have h1b : (u16 (hw k)).testBit 3 = true := (rsf_set_iff _).1 h1
    have := hsome k fuel h0b h1b hk
    rw [waitForSynchro_eq, hm'] at this
    have hm := Option.some.inj this
    subst hm
    exact ⟨k, hk, h0b, rfl, h1b, rfl⟩

/-- Witness of C8: CRL reads 0 at polls 0 and 1 and 0x0028 from poll 2 on; with two polls
the function is still waiting, with three it has returned with CRL = 0x0028. -/
theorem C8_waitForSynchro_polls_witness :
    (∀ i, i < 2 → (u16 (hwReadyAt 2 0x0028 i)).testBit 3 = false) ∧
    (u16 (hwReadyAt 2 0x0028 2)).testBit 3 = true ∧
    RTC_WaitForSynchro (hwReadyAt 2 0x0028) 2 ⟨⟨0, 0x0028, 0, 0, 0, 0, 0, 0, 0, 0⟩, []⟩ = none ∧
    RTC_WaitForSynchro (hwReadyAt 2 0x0028) 3 ⟨⟨0, 0x0028, 0, 0, 0, 0, 0, 0, 0, 0⟩, []⟩
      = some ⟨⟨0, 0x0028, 0, 0, 0, 0, 0, 0, 0, 0⟩,
          [⟨Access.update Reg.CRL 0x0028 0x0020, ⟨0, 0x0028, 0, 0, 0, 0, 0, 0, 0, 0⟩⟩,
           ⟨Access.load Reg.CRL 0, ⟨0, 0, 0, 0, 0, 0, 0, 0, 0, 0⟩⟩,
           ⟨Access.load Reg.CRL 0, ⟨0, 0, 0, 0, 0, 0, 0, 0, 0, 0⟩⟩,
           ⟨Access.load Reg.CRL 0x0028, ⟨0, 0x0028, 0, 0, 0, 0, 0, 0, 0, 0⟩⟩]⟩ :=
  ⟨by decide, by decide,
   (C8_waitForSynchro_polls (hwReadyAt 2 0x0028) ⟨⟨0, 0x0028, 0, 0, 0, 0, 0, 0, 0, 0⟩, []⟩ 2
      (by decide)).2.2.2.1 2 (Nat.le_refl 2),
   (C8_waitForSynchro_polls (hwReadyAt 2 0x0028) ⟨⟨0, 0x0028, 0, 0, 0, 0, 0, 0, 0, 0⟩, []⟩ 2
      (by decide)).2.2.2.2.1 (by decide) 3 (by decide)⟩

/-- C9: `RTC_WaitForLastTask` writes no register.  With the hardware given as a stream `hw`
of the CRL values seen by the successive polls, it does not return while every poll so far
has read RTOFF = 0 (bit 5, `RTC_FLAG_RTOFF = 0x0020`), and it returns exactly at the first
poll that reads RTOFF = 1; whenever it returns, every access it made is a load.  On a
register bank of 16-bit registers that already has RTOFF set and is left alone by the
hardware, it returns at the first poll with the register bank unchanged.  There is no
bound on the number of polls: for every `N` some hardware behaviour keeps it polling for
`N` polls before it returns. -/
theorem C9_waitForLastTask_polls (hw : Nat → Nat) (m : Machine) (n : Nat)
    (hclr : ∀ i, i < n → (u16 (hw i)).testBit 5 = false) :
    RTC_FLAG_RTOFF = 0x0020 ∧
    (∀ fuel, fuel ≤ n → RTC_WaitForLastTask hw fuel m = none) ∧
    ((u16 (hw n)).testBit 5 = true → ∀ fuel, n < fuel →
      RTC_WaitForLastTask hw fuel m
        = some ⟨m.regs.set Reg.CRL (u16 (hw n)),
            m.trace ++ (List.range (n + 1)).map (fun k => pollStep hw m.regs k)⟩) ∧
    (∀ fuel m', RTC_WaitForLastTask hw fuel m = some m' →
      m'.trace.take m.trace.length = m.trace ∧
      (∀ st ∈ m'.trace.drop m.trace.length, st.acc.isWrite = false) ∧
      ∃ k, k < fuel ∧ (∀ i, i < k → (u16 (hw i)).testBit 5 = false) ∧
        (u16 (hw k)).testBit 5 = true ∧ m'.regs = m.regs.set Reg.CRL (u16 (hw k))) ∧
    (m.regs.WF → m.regs.CRL.testBit 5 = true → ∀ fuel, 0 < fuel →
      RTC_WaitForLastTask (fun _ => m.regs.CRL) fuel m
        = some ⟨m.regs, m.trace ++ [⟨Access.load Reg.CRL m.regs.CRL, m.regs⟩]⟩) ∧
    (∀ N, ∃ hw', (∀ fuel, fuel ≤ N → RTC_WaitForLastTask hw' fuel m = none) ∧
      ∃ m', RTC_WaitForLastTask hw' (N + 1) m = some m') := by
  have hsome : ∀ (g : Nat → Nat) k fuel, (∀ i, i < k → (u16 (g i)).testBit 5 = false) →
      (u16 (g k)).testBit 5 = true → k < fuel →
      RTC_WaitForLastTask g fuel m
        = some ⟨m.regs.set Reg.CRL (u16 (g k)),
            m.trace ++ (List.range (k + 1)).map (fun j => pollStep g m.regs j)⟩ := by
    intro g k fuel h0 h1 hf
    unfold RTC_WaitForLastTask
    rw [pollCRL_some RTC_FLAG_RTOFF g k 0 _ fuel
      (fun i hi => by rw [Nat.zero_add]; exact (rtoff_clear_iff _).2 (h0 i hi))
      (by rw [Nat.zero_add]; exact (rtoff_set_iff _).2 h1) hf]
    simp only [pollSteps_eq_map, Nat.zero_add]
  have hnone : ∀ (g : Nat → Nat) k fuel, (∀ i, i < k → (u16 (g i)).testBit 5 = false) →
      fuel ≤ k → RTC_WaitForLastTask g fuel m = none := by
    intro g k fuel h0 hf
    unfold RTC_WaitForLastTask
    apply pollCRL_none
    intro i hi
    rw [Nat.zero_add]
    exact (rtoff_clear_iff _).2 (h0 i (by omega))
  refine ⟨rfl, fun fuel hf => hnone hw n fuel hclr hf,
    fun hn fuel hf => hsome hw n fuel hclr hn hf, ?_, ?_, ?_⟩
  · intro fuel m' hm'
    obtain ⟨k, hk, h0, h1, hm⟩ := pollCRL_sound _ _ _ _ _ hm'
    subst hm
    refine ⟨by simp, ?_, k, hk, fun i hi => (rtoff_clear_iff _).1 (h0 i hi),
      (rtoff_set_iff _).1 h1, rfl⟩
    intro st hst
    simp only [List.drop_left] at hst
    exact pollSteps_isLoad _ _ _ _ st hst
  · intro hwf h5 fuel hf
    have hc : m.regs.CRL < 65536 := hwf.2.1
    have h := hsome (fun _ => m.regs.CRL) 0 fuel (fun i hi => absurd hi (Nat.not_lt_zero i))
      (by rw [u16_of_lt hc]; exact h5) hf
    rw [h]
    have e : m.regs.set Reg.CRL m.regs.CRL = m.regs := set_get_self m.regs Reg.CRL
    simp [pollStep, u16_of_lt hc, e]
  · intro N
    have hlow : ∀ i, i < N → (u16 (hwReadyAt N 0x0020 i)).testBit 5 = false := by
      intro i hi
      simp [hwReadyAt, hi, u16]
    have hat : (u16 (hwReadyAt N 0x0020 N)).testBit 5 = true := by
      simp only [hwReadyAt, Nat.lt_irrefl, if_false]
      decide
    exact ⟨hwReadyAt N 0x0020, fun fuel hf => hnone _ N fuel hlow hf,
      _, hsome _ N (N + 1) hlow hat (Nat.lt_succ_self N)⟩

/-- Witness of C9: CRL reads 0 at polls 0 and 1 and 0x0020 from poll 2 on; with two polls
the function is still waiting, with three it has returned, having made three loads. -/
theorem C9_waitForLastTask_polls_witness :
    (∀ i, i < 2 → (u16 (hwReadyAt 2 0x0020 i)).testBit 5 = false) ∧
    (u16 (hwReadyAt 2 0x0020 2)).testBit 5 = true ∧
    RTC_WaitForLastTask (hwReadyAt 2 0x0020) 2 ⟨⟨0, 0, 0, 0, 0, 0, 0, 0, 0, 0⟩, []⟩ = none ∧
    RTC_WaitForLastTask (hwReadyAt 2 0x0020) 3 ⟨⟨0, 0, 0, 0, 0, 0, 0, 0, 0, 0⟩, []⟩
      = some ⟨⟨0, 0x0020, 0, 0, 0, 0, 0, 0, 0, 0⟩,
          [⟨Access.load Reg.CRL 0, ⟨0, 0, 0, 0, 0, 0, 0, 0, 0, 0⟩⟩,
           ⟨Access.load Reg.CRL 0, ⟨0, 0, 0, 0, 0, 0, 0, 0, 0, 0⟩⟩,
           ⟨Access.load Reg.CRL 0x0020, ⟨0, 0x0020, 0, 0, 0, 0, 0, 0, 0, 0⟩⟩]⟩ ∧
    (⟨⟨0, 0x0020, 0, 0, 0, 0, 0, 0, 0, 0⟩, []⟩ : Machine).regs.WF ∧
    RTC_WaitForLastTask (fun _ => 0x0020) 1 ⟨⟨0, 0x0020, 0, 0, 0, 0, 0, 0, 0, 0⟩, []⟩
      = some ⟨⟨0, 0x0020, 0, 0, 0, 0, 0, 0, 0, 0⟩,
          [⟨Access.load Reg.CRL 0x0020, ⟨0, 0x0020, 0, 0, 0, 0, 0, 0, 0, 0⟩⟩]⟩ :=
  ⟨by decide, by decide,
   (C9_waitForLastTask_polls (hwReadyAt 2 0x0020) ⟨⟨0, 0, 0, 0, 0, 0, 0, 0, 0, 0⟩, []⟩ 2
      (by decide)).2.1 2 (Nat.le_refl 2),
   (C9_waitForLastTask_polls (hwReadyAt 2 0x0020) ⟨⟨0, 0, 0, 0, 0, 0, 0, 0, 0, 0⟩, []⟩ 2
      (by decide)).2.2.1 (by decide) 3 (by decide),
   by decide,
   (C9_waitForLastTask_polls (fun _ => 0x0020) ⟨⟨0, 0x0020, 0, 0, 0, 0, 0, 0, 0, 0⟩, []⟩ 0
      (fun i hi => absurd hi (Nat.not_lt_zero i))).2.2.2.2.1 (by decide) (by decide) 1
      (by decide)⟩

/-- C10: `RTC_SetCounter` does not wait for write completion.  It is a total function
that, from every initial machine (RTOFF set or clear), adds exactly four accesses to the
trace, all of them writes and none a poll of CRL.  For two initial register banks that
differ at most in the RTOFF bit (bit 5 of CRL), the two final register banks have the same
CNTH, the same CNTL, the same configuration-mode bit (bit 4 of CRL) and the same value in
every register and CRL bit other than RTOFF, and RTOFF itself is in each run what it was
before the call. -/
theorem C10_setCounter_no_wait (v : Nat) (m1 m2 : Machine)
    (hregs : ∀ r, r ≠ Reg.CRL → m1.regs.get r = m2.regs.get r)
    (hbits : ∀ i, i ≠ 5 → m1.regs.CRL.testBit i = m2.regs.CRL.testBit i) :
    (RTC_SetCounter v m1).trace.take m1.trace.length = m1.trace ∧
    ((RTC_SetCounter v m1).trace.drop m1.trace.length).length = 4 ∧
    (∀ st ∈ (RTC_SetCounter v m1).trace.drop m1.trace.length, st.acc.isWrite = true) ∧
    (RTC_SetCounter v m1).regs.CNTH = (RTC_SetCounter v m2).regs.CNTH ∧
    (RTC_SetCounter v m1).regs.CNTL = (RTC_SetCounter v m2).regs.CNTL ∧
    (RTC_SetCounter v m1).regs.CRL.testBit 4 = (RTC_SetCounter v m2).regs.CRL.testBit 4 ∧
    (∀ r, r ≠ Reg.CRL → (RTC_SetCounter v m1).regs.get r = (RTC_SetCounter v m2).regs.get r) ∧
    (∀ i, i ≠ 5 →
      (RTC_SetCounter v m1).regs.CRL.testBit i = (RTC_SetCounter v m2).regs.CRL.testBit i) ∧
    (RTC_SetCounter v m1).regs.CRL.testBit 5 = m1.regs.CRL.testBit 5 ∧
    (RTC_SetCounter v m2).regs.CRL.testBit 5 = m2.regs.CRL.testBit 5 := by
  have hcrl : ∀ (m : Machine) i, (RTC_SetCounter v m).regs.CRL.testBit i
      = (decide (i < 16) && !decide (i = 4) && m.regs.CRL.testBit i) := by
    intro m i
    rw [setCounter_regs]
    exact testBit_bracket m.regs.CRL i
  have htr := setCounter_trace v m1
  refine ⟨?_, ?_, ?_, rfl, rfl, ?_, ?_, ?_, ?_, ?_⟩
  · rw [htr]; simp
  · rw [htr]; simp
  · intro st hst
    rw [htr, List.drop_left] at hst
    simp only [List.mem_cons, List.mem_singleton, List.not_mem_nil, or_false] at hst
    rcases hst with rfl | rfl | rfl | rfl <;> rfl
  · rw [hcrl, hcrl]; simp
  · intro r hr
    cases r
    case CRL => exact absurd rfl hr
    case CNTH => rfl
    case CNTL => rfl
    all_goals exact hregs _ hr
  · intro i hi
    rw [hcrl, hcrl, hbits i hi]
  · rw [hcrl]; simp
  · rw [hcrl]; simp

/-- Witness of C10: the same register bank with RTOFF set (CRL = 0x0020) and with RTOFF
clear (CRL = 0); both runs leave CNTH = 0x1234 and differ in RTOFF alone. -/
theorem C10_setCounter_no_wait_witness :
    (∀ r, r ≠ Reg.CRL →
      (⟨⟨0, 0x0020, 0, 0, 0, 0, 0, 0, 0, 0⟩, []⟩ : Machine).regs.get r
        = (⟨⟨0, 0, 0, 0, 0, 0, 0, 0, 0, 0⟩, []⟩ : Machine).regs.get r) ∧
    (∀ i, i ≠ 5 →
      (⟨⟨0, 0x0020, 0, 0, 0, 0, 0, 0, 0, 0⟩, []⟩ : Machine).regs.CRL.testBit i
        = (⟨⟨0, 0, 0, 0, 0, 0, 0, 0, 0, 0⟩, []⟩ : Machine).regs.CRL.testBit i) ∧
    (RTC_SetCounter 0x12345678 ⟨⟨0, 0x0020, 0, 0, 0, 0, 0, 0, 0, 0⟩, []⟩).regs.CNTH
      = (RTC_SetCounter 0x12345678 ⟨⟨0, 0, 0, 0, 0, 0, 0, 0, 0, 0⟩, []⟩).regs.CNTH ∧
    (RTC_SetCounter 0x12345678 ⟨⟨0, 0x0020, 0, 0, 0, 0, 0, 0, 0, 0⟩, []⟩).regs.CRL.testBit 5
      = true ∧
    (RTC_SetCounter 0x12345678 ⟨⟨0, 0, 0, 0, 0, 0, 0, 0, 0, 0⟩, []⟩).regs.CRL.testBit 5
      = false :=
  have hregs : ∀ r, r ≠ Reg.CRL →
      (⟨⟨0, 0x0020, 0, 0, 0, 0, 0, 0, 0, 0⟩, []⟩ : Machine).regs.get r
        = (⟨⟨0, 0, 0, 0, 0, 0, 0, 0, 0, 0⟩, []⟩ : Machine).regs.get r := by
    intro r hr
    cases r <;> first | rfl | exact absurd rfl hr
  have hbits : ∀ i, i ≠ 5 →
      (⟨⟨0, 0x0020, 0, 0, 0, 0, 0, 0, 0, 0⟩, []⟩ : Machine).regs.CRL.testBit i
        = (⟨⟨0, 0, 0, 0, 0, 0, 0, 0, 0, 0⟩, []⟩ : Machine).regs.CRL.testBit i := by
    intro i hi
    show (2 ^ 5).testBit i = Nat.testBit 0 i
    rw [Nat.testBit_two_pow_of_ne (fun e => hi e.symm), Nat.zero_testBit]
  ⟨hregs, hbits,
   (C10_setCounter_no_wait 0x12345678 _ _ hregs hbits).2.2.2.1,
   (C10_setCounter_no_wait 0x12345678 _ _ hregs hbits).2.2.2.2.2.2.2.2.1,
   (C10_setCounter_no_wait 0x12345678 _ _ hregs hbits).2.2.2.2.2.2.2.2.2⟩

/-- C11: on a register bank of 16-bit registers, `RTC_GetCounter` returns
`(CNTH << 16) | CNTL`, a 32-bit value with CNTH in bits 16 to 31 and CNTL in bits 0 to 15,
and leaves every register unchanged: its only accesses are a load of CNTL and a load of
CNTH. -/
theorem C11_getCounter_value (m : Machine) (h : m.regs.WF) :
    (RTC_GetCounter m).1 = (m.regs.CNTH <<< 16) ||| m.regs.CNTL ∧
    (RTC_GetCounter m).1 < 4294967296 ∧
    (RTC_GetCounter m).1 / 65536 = m.regs.CNTH ∧
    (RTC_GetCounter m).1 % 65536 = m.regs.CNTL ∧
    (RTC_GetCounter m).2.regs = m.regs ∧
    (RTC_GetCounter m).2.trace.map Step.acc = m.trace.map Step.acc ++
      [Access.load Reg.CNTL m.regs.CNTL, Access.load Reg.CNTH m.regs.CNTH] := by
  have hH : m.regs.CNTH < 65536 := h.2.2.2.2.2.2.1
  have hL : m.regs.CNTL < 65536 := h.2.2.2.2.2.2.2.1
  have hv := getCounter_val m h
  refine ⟨?_, ?_, ?_, ?_, ?_, ?_⟩
  · rw [hv, shiftLeft_or_eq _ _ hL]
  · omega
  · omega
  · omega
  · rfl
  · simp [RTC_GetCounter, Machine.load, RTC_TypeDef.get]

/-- Witness of C11 on a register bank with CNTH = 0x1234 and CNTL = 0x5678. -/
theorem C11_getCounter_value_witness :
    (⟨⟨0, 0, 0, 0, 0, 0, 0x1234, 0x5678, 0, 0⟩, []⟩ : Machine).regs.WF ∧
    (RTC_GetCounter ⟨⟨0, 0, 0, 0, 0, 0, 0x1234, 0x5678, 0, 0⟩, []⟩).1
      = (0x1234 <<< 16) ||| 0x5678 :=
  ⟨by decide,
   (C11_getCounter_value ⟨⟨0, 0, 0, 0, 0, 0, 0x1234, 0x5678, 0, 0⟩, []⟩ (by decide)).1⟩

/-- C12, as stated, fails: with DIVH = 0x0010 and DIVL = 0 (a well-formed register bank)
`RTC_GetDivider` returns 0, while DIVH shifted left by 16 and OR'd with DIVL is
0x100000. -/
theorem C12_getDivider_counterexample :
    (⟨⟨0, 0, 0, 0, 0x0010, 0, 0, 0, 0, 0⟩, []⟩ : Machine).regs.WF ∧
    (RTC_GetDivider ⟨⟨0, 0, 0, 0, 0x0010, 0, 0, 0, 0, 0⟩, []⟩).1 = 0 ∧
    ((⟨⟨0, 0, 0, 0, 0x0010, 0, 0, 0, 0, 0⟩, []⟩ : Machine).regs.DIVH <<< 16) |||
      (⟨⟨0, 0, 0, 0, 0x0010, 0, 0, 0, 0, 0⟩, []⟩ : Machine).regs.DIVL = 0x100000 ∧
    (RTC_GetDivider ⟨⟨0, 0, 0, 0, 0x0010, 0, 0, 0, 0, 0⟩, []⟩).1 ≠
      ((⟨⟨0, 0, 0, 0, 0x0010, 0, 0, 0, 0, 0⟩, []⟩ : Machine).regs.DIVH <<< 16) |||
        (⟨⟨0, 0, 0, 0, 0x0010, 0, 0, 0, 0, 0⟩, []⟩ : Machine).regs.DIVL := by
  refine ⟨by decide, by decide, by decide, by decide⟩

/-- C12, amended: for every register bank, `RTC_GetDivider` returns the low four bits of
DIVH shifted left by 16 and OR'd with DIVL, `((DIVH & 0x000F) << 16) | DIVL`; this is
`(DIVH << 16) | DIVL` whenever DIVH is below 16 (its upper 12 bits are zero).  It leaves
every register unchanged: its only accesses are a load of DIVH and a load of DIVL. -/
theorem C12_getDivider_masked (m : Machine) :
    (RTC_GetDivider m).1 = ((m.regs.DIVH &&& 0x000F) <<< 16) ||| m.regs.DIVL ∧
    (m.regs.DIVH < 16 → (RTC_GetDivider m).1 = (m.regs.DIVH <<< 16) ||| m.regs.DIVL) ∧
    (RTC_GetDivider m).2.regs = m.regs ∧
    (RTC_GetDivider m).2.trace.map Step.acc = m.trace.map Step.acc ++
      [Access.load Reg.DIVH m.regs.DIVH, Access.load Reg.DIVL m.regs.DIVL] := by
  refine ⟨getDivider_val m, ?_, (getDivider_frame m).1, (getDivider_frame m).2⟩
  intro hd
  have hF : (0xF : Nat) = 2 ^ 4 - 1 := by decide
  rw [getDivider_val, hF, Nat.and_pow_two_sub_one_of_lt_two_pow (by simpa using hd)]

/-- Witness of C12 as amended, on a register bank with DIVH = 0x0007 and DIVL = 0x0123. -/
theorem C12_getDivider_masked_witness :
    (⟨⟨0, 0, 0, 0, 0x0007, 0x0123, 0, 0, 0, 0⟩, []⟩ : Machine).regs.DIVH < 16 ∧
    (RTC_GetDivider ⟨⟨0, 0, 0, 0, 0x0007, 0x0123, 0, 0, 0, 0⟩, []⟩).1
      = (0x0007 <<< 16) ||| 0x0123 :=
  ⟨by decide,
   (C12_getDivider_masked ⟨⟨0, 0, 0, 0, 0x0007, 0x0123, 0, 0, 0, 0⟩, []⟩).2.1 (by decide)⟩

/-- C13: for every 32-bit value `v` and every register bank, after `RTC_SetAlarm v` the
register ALRH holds `v >> 16` and ALRL holds `v & 0xFFFF`, so that `(ALRH << 16) | ALRL`
is `v`: no bit of `v` is lost. -/
theorem C13_setAlarm_registers (v : Nat) (hv : v < 4294967296) (m : Machine) :
    (RTC_SetAlarm v m).regs.ALRH = v >>> 16 ∧
    (RTC_SetAlarm v m).regs.ALRL = v &&& 0xFFFF ∧
    ((RTC_SetAlarm v m).regs.ALRH <<< 16) ||| (RTC_SetAlarm v m).regs.ALRL = v := by
  have hH : (RTC_SetAlarm v m).regs.ALRH = v >>> 16 := by
    simp only [RTC_SetAlarm, RTC_EnterConfigMode, RTC_ExitConfigMode,
      Machine.store, Machine.update, RTC_TypeDef.get, RTC_TypeDef.set]
    rw [Nat.shiftRight_eq_div_pow]; unfold u16; omega
  have hL : (RTC_SetAlarm v m).regs.ALRL = v &&& 0xFFFF := by
    simp only [RTC_SetAlarm, RTC_EnterConfigMode, RTC_ExitConfigMode,
      Machine.store, Machine.update, RTC_TypeDef.get, RTC_TypeDef.set]
    exact low_half v
  refine ⟨hH, hL, ?_⟩
  have hM : (0xFFFF : Nat) = 2 ^ 16 - 1 := by decide
  rw [hH, hL, hM, Nat.and_pow_two_sub_one_eq_mod,
    shiftLeft_or_eq _ _ (Nat.mod_lt _ (by decide)), Nat.shiftRight_eq_div_pow]
  omega

/-- Witness of C13 at `v = 0x12345678` on the all-zero register bank. -/
theorem C13_setAlarm_registers_witness :
    (0x12345678 : Nat) < 4294967296 ∧
    (RTC_SetAlarm 0x12345678 ⟨⟨0, 0, 0, 0, 0, 0, 0, 0, 0, 0⟩, []⟩).regs.ALRH
      = 0x12345678 >>> 16 :=
  ⟨by decide,
   (C13_setAlarm_registers 0x12345678 (by decide) ⟨⟨0, 0, 0, 0, 0, 0, 0, 0, 0, 0⟩, []⟩).1⟩

/-- C14: on a register bank of 16-bit registers and for every mask (every 16-bit mask in
particular), after `RTC_ClearITPendingBit` the bits of CRL in the mask are 0, the bits of
CRL outside the mask and the whole of CRH (the enable bits) are unchanged, as is every
other register, and `RTC_GetITStatus` with the same mask on the resulting machine returns
RESET, for either width of the enumeration `ITStatus`. -/
theorem C14_clearITPendingBit_then_status (w : EnumWidth) (mask : Nat) (m : Machine)
    (h : m.regs.WF) :
    (∀ i, mask.testBit i = true →
      (RTC_ClearITPendingBit mask m).regs.CRL.testBit i = false) ∧
    (∀ i, mask.testBit i = false →
      (RTC_ClearITPendingBit mask m).regs.CRL.testBit i = m.regs.CRL.testBit i) ∧
    (RTC_ClearITPendingBit mask m).regs.CRH = m.regs.CRH ∧
    (∀ r, r ≠ Reg.CRL → (RTC_ClearITPendingBit mask m).regs.get r = m.regs.get r) ∧
    (RTC_GetITStatus w mask (RTC_ClearITPendingBit mask m)).1 = FlagStatus.RESET := by
  have hc : m.regs.CRL < 65536 := h.2.1
  have hbit : ∀ i, (RTC_ClearITPendingBit mask m).regs.CRL.testBit i
      = (m.regs.CRL.testBit i && !mask.testBit i) := by
    intro i
    simp only [RTC_ClearITPendingBit, Machine.update, RTC_TypeDef.get, RTC_TypeDef.set]
    exact testBit_clear hc mask i
  refine ⟨?_, ?_, rfl, ?_, ?_⟩
  · intro i hi
    rw [hbit, hi]; simp
  · intro i hi
    rw [hbit, hi]; simp
  · intro r hr
    simp only [RTC_ClearITPendingBit, Machine.update]
    exact get_set_of_ne _ _ hr
  · have hz : (RTC_ClearITPendingBit mask m).regs.CRL &&& mask = 0 := by
      simp only [RTC_ClearITPendingBit, Machine.update, RTC_TypeDef.get, RTC_TypeDef.set]
      exact clear_and_mask _ _
    have hns : ¬ (RTC_GetITStatus w mask (RTC_ClearITPendingBit mask m)).1
        = FlagStatus.SET := by
      rw [getITStatus_set_iff, hz]
      exact fun hh => hh.2 (castITStatus_of_lt w (by decide))
    cases hr : (RTC_GetITStatus w mask (RTC_ClearITPendingBit mask m)).1
    · rfl
    · exact absurd hr hns

/-- Witness of C14: the alarm interrupt pending and enabled, then cleared, with a one-byte
enumeration. -/
theorem C14_clearITPendingBit_then_status_witness :
    (⟨⟨0x0002, 0x0023, 0, 0, 0, 0, 0, 0, 0, 0⟩, []⟩ : Machine).regs.WF ∧
    (RTC_GetITStatus EnumWidth.byte 0x0002
      ⟨⟨0x0002, 0x0023, 0, 0, 0, 0, 0, 0, 0, 0⟩, []⟩).1 = FlagStatus.SET ∧
    (RTC_GetITStatus EnumWidth.byte 0x0002
      (RTC_ClearITPendingBit 0x0002 ⟨⟨0x0002, 0x0023, 0, 0, 0, 0, 0, 0, 0, 0⟩, []⟩)).1
      = FlagStatus.RESET :=
  ⟨by decide, by decide,
   (C14_clearITPendingBit_then_status EnumWidth.byte 0x0002
      ⟨⟨0x0002, 0x0023, 0, 0, 0, 0, 0, 0, 0, 0⟩, []⟩ (by decide)).2.2.2.2⟩

/-- C15: for every register bank and every mask (every 16-bit mask in particular),
`RTC_GetFlagStatus` returns SET exactly when `CRL & mask` is non-zero, that is when at
least one bit of the mask is set in CRL, and RESET otherwise; it changes no register: its
only access is a load of CRL. -/
theorem C15_getFlagStatus_mask (mask : Nat) (m : Machine) :
    ((RTC_GetFlagStatus mask m).1 = FlagStatus.SET ↔ m.regs.CRL &&& mask ≠ 0) ∧
    ((RTC_GetFlagStatus mask m).1 = FlagStatus.SET ↔
      ∃ i, mask.testBit i = true ∧ m.regs.CRL.testBit i = true) ∧
    ((RTC_GetFlagStatus mask m).1 = FlagStatus.RESET ↔ m.regs.CRL &&& mask = 0) ∧
    (RTC_GetFlagStatus mask m).2.regs = m.regs ∧
    (RTC_GetFlagStatus mask m).2.trace.map Step.acc = m.trace.map Step.acc ++
      [Access.load Reg.CRL m.regs.CRL] := by
  have hset : (RTC_GetFlagStatus mask m).1 = FlagStatus.SET ↔ m.regs.CRL &&& mask ≠ 0 := by
    simp only [RTC_GetFlagStatus, Machine.load, RTC_TypeDef.get]
    by_cases h : m.regs.CRL &&& mask ≠ 0
    · rw [if_pos h]; simp [h]
    · rw [if_neg h]; simp [h]
  have hreset : (RTC_GetFlagStatus mask m).1 = FlagStatus.RESET ↔ m.regs.CRL &&& mask = 0 := by
    simp only [RTC_GetFlagStatus, Machine.load, RTC_TypeDef.get]
    by_cases h : m.regs.CRL &&& mask ≠ 0
    · rw [if_pos h]; simp [h]
    · rw [if_neg h]; simpa using h
  refine ⟨hset, ?_, hreset, ?_, ?_⟩
  · rw [hset, ne_zero_iff_exists_testBit]
    constructor
    · rintro ⟨i, hi⟩
      rw [Nat.testBit_and] at hi
      simp only [Bool.and_eq_true] at hi
      exact ⟨i, hi.2, hi.1⟩
    · rintro ⟨i, h1, h2⟩
      exact ⟨i, by rw [Nat.testBit_and, h1, h2]; rfl⟩
  · simp only [RTC_GetFlagStatus, Machine.load]
    split <;> rfl
  · simp only [RTC_GetFlagStatus, Machine.load, RTC_TypeDef.get]
    split <;> simp

/-- C16: on a register bank of 16-bit registers, each setter touches only its own
registers: `RTC_SetCounter` changes at most CNTH, CNTL and bit 4 of CRL, `RTC_SetPrescaler`
at most PRLH, PRLL and bit 4 of CRL, `RTC_SetAlarm` at most ALRH, ALRL and bit 4 of CRL.
Bit 4 of CRL is 0 afterwards whatever it was before the call, and every other bit of CRL,
CRH and the remaining registers keep their values. -/
theorem C16_setters_frame (v : Nat) (m : Machine) (h : m.regs.WF) :
    (RTC_SetCounter v m).regs
      = { m.regs with CRL := m.regs.CRL &&& 0xFFEF,
                      CNTH := u16 (v >>> 16), CNTL := v &&& 0xFFFF } ∧
    (RTC_SetPrescaler v m).regs
      = { m.regs with CRL := m.regs.CRL &&& 0xFFEF,
                      PRLH := (v >>> 16) &&& 0xF, PRLL := v &&& 0xFFFF } ∧
    (RTC_SetAlarm v m).regs
      = { m.regs with CRL := m.regs.CRL &&& 0xFFEF,
                      ALRH := u16 (v >>> 16), ALRL := v &&& 0xFFFF } ∧
    (m.regs.CRL &&& 0xFFEF).testBit 4 = false ∧
    (∀ i, i ≠ 4 → (m.regs.CRL &&& 0xFFEF).testBit i = m.regs.CRL.testBit i) ∧
    (∀ r, r ≠ Reg.CRL → r ≠ Reg.CNTH → r ≠ Reg.CNTL →
      (RTC_SetCounter v m).regs.get r = m.regs.get r) ∧
    (∀ r, r ≠ Reg.CRL → r ≠ Reg.PRLH → r ≠ Reg.PRLL →
      (RTC_SetPrescaler v m).regs.get r = m.regs.get r) ∧
    (∀ r, r ≠ Reg.CRL → r ≠ Reg.ALRH → r ≠ Reg.ALRL →
      (RTC_SetAlarm v m).regs.get r = m.regs.get r) := by
  have hc : m.regs.CRL < 65536 := h.2.1
  have hbit : ∀ i, (m.regs.CRL &&& 0xFFEF).testBit i
      = (m.regs.CRL.testBit i && !decide (i = 4)) := by
    intro i
    show (m.regs.CRL &&& CRL_CNF_Reset).testBit i = _
    rw [Nat.testBit_and, testBit_CRL_CNF_Reset]
    by_cases h16 : i < 16
    · simp [h16]
    · simp [h16, testBit_of_lt_u16 hc (Nat.le_of_not_lt h16)]
  refine ⟨?_, ?_, ?_, ?_, ?_, ?_, ?_, ?_⟩
  · rw [setCounter_regs, bracket_eq hc, low_half]
  · rw [setPrescaler_regs, bracket_eq hc, low_half, prescaler_high]
  · rw [setAlarm_regs, bracket_eq hc, low_half]
  · rw [hbit]; simp
  · intro i hi
    rw [hbit]; simp [hi]
  · intro r h1 h2 h3
    cases r <;> first | rfl | exact absurd rfl h1 | exact absurd rfl h2 | exact absurd rfl h3
  · intro r h1 h2 h3
    cases r <;> first | rfl | exact absurd rfl h1 | exact absurd rfl h2 | exact absurd rfl h3
  · intro r h1 h2 h3
    cases r <;> first | rfl | exact absurd rfl h1 | exact absurd rfl h2 | exact absurd rfl h3

/-- Witness of C16: a register bank whose CRL = 0x0038 already has the configuration-mode
bit set; after `RTC_SetCounter` CRL = 0x0028. -/
theorem C16_setters_frame_witness :
    (⟨⟨0x0007, 0x0038, 1, 2, 3, 4, 5, 6, 7, 8⟩, []⟩ : Machine).regs.WF ∧
    (RTC_SetCounter 0x12345678 ⟨⟨0x0007, 0x0038, 1, 2, 3, 4, 5, 6, 7, 8⟩, []⟩).regs
      = ⟨0x0007, 0x0028, 1, 2, 3, 4, 0x1234, 0x5678, 7, 8⟩ :=
  ⟨by decide,
   (C16_setters_frame 0x12345678 ⟨⟨0x0007, 0x0038, 1, 2, 3, 4, 5, 6, 7, 8⟩, []⟩
      (by decide)).1⟩

/-- C17: `RTC_GetITStatus` does not match flag and enable bits source by source when its
mask names several sources.  With the mask `RTC_IT_OW | RTC_IT_ALR = 0x0006`, CRH = 0x0004
and CRL = 0x0002 it returns SET although no bit is set both in CRL and in CRH (and each
of the two sources alone gives RESET), for either width of the enumeration `ITStatus`.
In general, for every mask below 256 (every combination of interrupt sources in
particular) it returns SET exactly when `CRH & mask` is non-zero and `CRL & mask` is
non-zero. -/
theorem C17_getITStatus_multi_source (w : EnumWidth) (mask : Nat) (hmask : mask < 256)
    (m : Machine) :
    ((RTC_GetITStatus w mask m).1 = FlagStatus.SET ↔
      (m.regs.CRH &&& mask ≠ 0 ∧ m.regs.CRL &&& mask ≠ 0)) ∧
    ((RTC_GetITStatus w mask m).1 = FlagStatus.RESET ↔
      ¬ (m.regs.CRH &&& mask ≠ 0 ∧ m.regs.CRL &&& mask ≠ 0)) ∧
    RTC_IT_OW ||| RTC_IT_ALR = 0x0006 ∧
    RTC_IT_SEC ||| RTC_IT_ALR ||| RTC_IT_OW < 256 ∧
    (RTC_GetITStatus w (RTC_IT_OW ||| RTC_IT_ALR)
      ⟨⟨0x0004, 0x0002, 0, 0, 0, 0, 0, 0, 0, 0⟩, []⟩).1 = FlagStatus.SET ∧
    (∀ i, ¬ ((0x0002 : Nat).testBit i = true ∧ (0x0004 : Nat).testBit i = true)) ∧
    (RTC_GetITStatus w RTC_IT_OW ⟨⟨0x0004, 0x0002, 0, 0, 0, 0, 0, 0, 0, 0⟩, []⟩).1
      = FlagStatus.RESET ∧
    (RTC_GetITStatus w RTC_IT_ALR ⟨⟨0x0004, 0x0002, 0, 0, 0, 0, 0, 0, 0, 0⟩, []⟩).1
      = FlagStatus.RESET := by
  have hset : (RTC_GetITStatus w mask m).1 = FlagStatus.SET ↔
      (m.regs.CRH &&& mask ≠ 0 ∧ m.regs.CRL &&& mask ≠ 0) := by
    rw [getITStatus_set_iff, castITStatus_and w _ hmask]
  refine ⟨hset, ?_, by decide, by decide, ?_, ?_, ?_, ?_⟩
  · rw [← hset]
    cases (RTC_GetITStatus w mask m).1 <;> simp
  · cases w <;> decide
  · intro i hi
    have h0 : ((0x0002 : Nat) &&& 0x0004).testBit i = true := by
      rw [Nat.testBit_and, hi.1, hi.2]; rfl
    have hz : ((0x0002 : Nat) &&& 0x0004) = 0 := by decide
    rw [hz, Nat.zero_testBit] at h0
    exact absurd h0 (by decide)
  · cases w <;> decide
  · cases w <;> decide

/-- Witness of C17: the mask 0x0006 with a one-byte enumeration, CRH = 0x0004 and
CRL = 0x0002. -/
theorem C17_getITStatus_multi_source_witness :
    (0x0006 : Nat) < 256 ∧
    ((RTC_GetITStatus EnumWidth.byte 0x0006
        ⟨⟨0x0004, 0x0002, 0, 0, 0, 0, 0, 0, 0, 0⟩, []⟩).1 = FlagStatus.SET ↔
      ((⟨⟨0x0004, 0x0002, 0, 0, 0, 0, 0, 0, 0, 0⟩, []⟩ : Machine).regs.CRH &&& 0x0006 ≠ 0 ∧
       (⟨⟨0x0004, 0x0002, 0, 0, 0, 0, 0, 0, 0, 0⟩, []⟩ : Machine).regs.CRL &&& 0x0006 ≠ 0)) ∧
    (RTC_GetITStatus EnumWidth.byte 0x0006
      ⟨⟨0x0004, 0x0002, 0, 0, 0, 0, 0, 0, 0, 0⟩, []⟩).1 = FlagStatus.SET :=
  ⟨by decide,
   (C17_getITStatus_multi_source EnumWidth.byte 0x0006 (by decide)
      ⟨⟨0x0004, 0x0002, 0, 0, 0, 0, 0, 0, 0, 0⟩, []⟩).1,
   (C17_getITStatus_multi_source EnumWidth.byte 0x0006 (by decide)
      ⟨⟨0x0004, 0x0002, 0, 0, 0, 0, 0, 0, 0, 0⟩, []⟩).2.2.2.2.1⟩

/-- C18: on a register bank of 16-bit registers, the result of `RTC_GetDivider` is below
2^20 and does not depend on bits 4 to 15 of DIVH: it is `((DIVH & 0x000F) << 16) | DIVL`,
so a second register bank with the same DIVL and the same low four bits of DIVH gives the
same result. -/
theorem C18_getDivider_bound (m : Machine) (h : m.regs.WF) :
    (RTC_GetDivider m).1 < 2 ^ 20 ∧
    (RTC_GetDivider m).1 = ((m.regs.DIVH &&& 0x000F) <<< 16) ||| m.regs.DIVL ∧
    (∀ m2 : Machine, m2.regs.DIVL = m.regs.DIVL →
      (∀ i, i < 4 → m2.regs.DIVH.testBit i = m.regs.DIVH.testBit i) →
      (RTC_GetDivider m2).1 = (RTC_GetDivider m).1) := by
  have hL : m.regs.DIVL < 65536 := h.2.2.2.2.2.1
  have hF : (0xF : Nat) = 2 ^ 4 - 1 := by decide
  refine ⟨?_, getDivider_val m, ?_⟩
  · rw [getDivider_val, shiftLeft_or_eq _ _ hL, hF, Nat.and_pow_two_sub_one_eq_mod]
    omega
  · intro m2 hl hb
    rw [getDivider_val, getDivider_val, hl]
    have e : m2.regs.DIVH &&& 0xF = m.regs.DIVH &&& 0xF := by
      apply Nat.eq_of_testBit_eq
      intro i
      rw [Nat.testBit_and, Nat.testBit_and, hF, Nat.testBit_two_pow_sub_one]
      by_cases h4 : i < 4
      · rw [hb i h4]
      · simp [h4]
    rw [e]

/-- Witness of C18: DIVH = 0xABC5 and DIVH = 0x0005 with the same DIVL give the same
divider, 0x51234. -/
theorem C18_getDivider_bound_witness :
    (⟨⟨0, 0, 0, 0, 0x0005, 0x1234, 0, 0, 0, 0⟩, []⟩ : Machine).regs.WF ∧
    (RTC_GetDivider ⟨⟨0, 0, 0, 0, 0x0005, 0x1234, 0, 0, 0, 0⟩, []⟩).1 < 2 ^ 20 ∧
    (RTC_GetDivider ⟨⟨0, 0, 0, 0, 0xABC5, 0x1234, 0, 0, 0, 0⟩, []⟩).1
      = (RTC_GetDivider ⟨⟨0, 0, 0, 0, 0x0005, 0x1234, 0, 0, 0, 0⟩, []⟩).1 :=
  ⟨by decide,
   (C18_getDivider_bound ⟨⟨0, 0, 0, 0, 0x0005, 0x1234, 0, 0, 0, 0⟩, []⟩ (by decide)).1,
   (C18_getDivider_bound ⟨⟨0, 0, 0, 0, 0x0005, 0x1234, 0, 0, 0, 0⟩, []⟩ (by decide)).2.2
      ⟨⟨0, 0, 0, 0, 0xABC5, 0x1234, 0, 0, 0, 0⟩, []⟩ rfl (by decide)⟩

/-- C19: `RTC_ClearITPendingBit` and `RTC_ClearFlag` are the same state transformer: for
every machine and every mask they give identical results (register bank and trace; the
parameter assertions are not part of the model), and each is idempotent on the register
bank: applied twice with the same mask it leaves the registers it leaves when applied
once. -/
theorem C19_clear_same_and_idempotent (mask : Nat) (m : Machine) :
    RTC_ClearITPendingBit mask m = RTC_ClearFlag mask m ∧
    (RTC_ClearFlag mask (RTC_ClearFlag mask m)).regs = (RTC_ClearFlag mask m).regs ∧
    (RTC_ClearITPendingBit mask (RTC_ClearITPendingBit mask m)).regs
      = (RTC_ClearITPendingBit mask m).regs := by
  have hidem : (RTC_ClearFlag mask (RTC_ClearFlag mask m)).regs
      = (RTC_ClearFlag mask m).regs := by
    simp only [RTC_ClearFlag, Machine.update, RTC_TypeDef.get, RTC_TypeDef.set, clear_clear]
  exact ⟨rfl, hidem, hidem⟩

end Stm32Rtc
